import Mathlib

/-!
# go-scrap-kurs: a shallow embedding of `main.go`

Go strings are modelled by Lean strings (sequences of Unicode scalar values); every
pattern the program searches for is a single ASCII character, so replacing on scalar
values and replacing on UTF-8 bytes agree on well-formed text.
-/

namespace GoScrapKurs

/-! ## Package `strings` -/

/-- Scanner behind `strings.Count(s, old)`: non-overlapping occurrences of `old`,
left to right. `skip` is the number of characters of the current occurrence still to
be passed over. For an empty `old` Go counts one occurrence before every character and
one at the end. -/
def countFrom (old : List Char) : Nat → List Char → Nat
  | 0, [] => if old.isEmpty then 1 else 0
  | _ + 1, [] => 0
  | skip + 1, _ :: cs => countFrom old skip cs
  | 0, c :: cs =>
    if old.isPrefixOf (c :: cs) then 1 + countFrom old (old.length - 1) cs
    else countFrom old 0 cs

/-- Loop of `strings.Replace`: the first `n` non-overlapping occurrences of `old`
are replaced by `new`, the rest of the text is copied. -/
def replaceFrom (old new : List Char) : Nat → Nat → List Char → List Char
  | n, skip + 1, _ :: cs => replaceFrom old new n skip cs
  | _, _ + 1, [] => []
  | 0, 0, s => s
  | _ + 1, 0, [] => if old.isEmpty then new else []
  | n + 1, 0, c :: cs =>
    if old.isEmpty then new ++ c :: replaceFrom old new n 0 cs
    else if old.isPrefixOf (c :: cs) then new ++ replaceFrom old new n (old.length - 1) cs
    else c :: replaceFrom old new (n + 1) 0 cs

/-- Go's `strings.Replace(s, old, new, n)`: a copy of `s` with the first `n`
non-overlapping instances of `old` replaced by `new`; all of them when `n < 0`. -/
def stringsReplace (s old new : String) (n : Int) : String :=
  if old = new ∨ n = 0 then s
  else
    let m := countFrom old.data 0 s.data
    if m = 0 then s
    else
      let k := if n < 0 ∨ (m : Int) < n then m else n.toNat
      ⟨replaceFrom old.data new.data k 0 s.data⟩

/-- Go's `strings.Trim(s, cutset)`: `s` without the leading and trailing characters
that occur in `cutset`. -/
def stringsTrim (s cutset : String) : String :=
  ⟨((s.data.dropWhile (fun c => cutset.data.contains c)).reverse.dropWhile
      (fun c => cutset.data.contains c)).reverse⟩

/-! ## `main.go`, lines 30-36: the two numeric normalizers -/

/-- Source `normalize`: thousands commas are dropped. -/
def normalize (str : String) : String :=
  stringsReplace str "," "" (-1)

/-- Source `normalizeDot`: thousands dots are dropped, then the decimal comma becomes
a dot. -/
def normalizeDot (str : String) : String :=
  stringsReplace (stringsReplace str "." "" (-1)) "," "." (-1)

/-! ### Reading of the specification's wording, for comparison -/

/-- Variant A as the specification words it: every comma removed, everything else
kept in order. -/
def specVariantA (s : String) : String :=
  ⟨s.data.filter (fun c => c != ',')⟩

/-- Variant B as the specification words it: every dot removed, then every comma
replaced by a dot. -/
def specVariantB (s : String) : String :=
  ⟨(s.data.filter (fun c => c != '.')).map (fun c => if c = ',' then '.' else c)⟩

/-- An already-normalized decimal: decimal digits with at most one dot, no comma. -/
def isNormalizedDecimal (s : String) : Bool :=
  s.data.all (fun c => c.isDigit || c == '.') && decide (s.data.count '.' ≤ 1)

/-! ## Package `strconv`: `ParseFloat(s, 32)`

The grammar follows `special`, `readFloat` and `underscoreOK` of `strconv/atof.go`.
Where Go keeps the first 19 significant digits and a truncation flag, the model keeps
the exact digit string: the conversion routines of `strconv` return the binary32 value
nearest to the exact decimal (ties to even), which `roundFloat32` computes directly.
-/

/-- A `float32` value: `finite neg m e` is `(-1)^neg * m * 2^e` with `m < 2^24`
and `-149 ≤ e ≤ 104` (zero is `finite neg 0 0`). -/
inductive Float32
  | finite (neg : Bool) (mant : Nat) (exp : Int)
  | inf (neg : Bool)
  | nan
deriving DecidableEq

/-- Positive zero, the zero value of a Go `float32`. -/
def Float32.zero : Float32 := .finite false 0 0

/-- The rational number a finite `float32` stands for. -/
def Float32.toRat : Float32 → Option ℚ
  | .finite neg m e => some ((if neg then -1 else 1) * (m : ℚ) * (2 : ℚ) ^ e)
  | _ => none

/-- The two errors `strconv.ParseFloat` reports (`*NumError.Err`). -/
inductive NumError
  | ErrSyntax
  | ErrRange
deriving DecidableEq

/-- Number of binary digits of `n`, by halving; `fuel` bounds the number of
halvings. -/
def bitLength : Nat → Nat → Nat
  | 0, _ => 0
  | fuel + 1, n => if n = 0 then 0 else 1 + bitLength fuel (n / 2)

/-- Integer part of the binary logarithm of `num / den` (both positive). -/
def floorLog2 (num den : Nat) : Int :=
  let a := bitLength num num - 1
  let b := bitLength den den - 1
  if den * 2 ^ a ≤ num * 2 ^ b then (a : Int) - b else (a : Int) - b - 1

/-- Quotient `n / d` rounded to the nearest integer, ties to even. -/
def divRoundEven (n d : Nat) : Nat :=
  let q := n / d
  let r := n % d
  if 2 * r < d then q else if d < 2 * r then q + 1 else q + q % 2

/-- The binary32 value nearest to `± num / den` and the overflow flag: 24 bits of
mantissa, least exponent `-149` (subnormals), overflow to infinity above
`(2^24 - 1) * 2^104`. -/
def roundFloat32 (neg : Bool) (num den : Nat) : Float32 × Bool :=
  if num = 0 then (.finite neg 0 0, false)
  else
    let e0 : Int := max (floorLog2 num den - 23) (-149)
    let m0 := if 0 ≤ e0 then divRoundEven num (den * 2 ^ e0.toNat)
              else divRoundEven (num * 2 ^ (-e0).toNat) den
    let m := if m0 = 2 ^ 24 then 2 ^ 23 else m0
    let e := if m0 = 2 ^ 24 then e0 + 1 else e0
    if 104 < e then (.inf neg, true)
    else if m = 0 then (.finite neg 0 0, false)
    else (.finite neg m e, false)

/-- Go's `lower(c)`: `c | ('x' - 'X')`, on the character code. -/
def lower (c : Char) : Nat := c.toNat ||| 32

/-- Go's `commonPrefixLenIgnoreCase(s, pfx)`, `pfx` in lower case. -/
def commonPrefixLenIgnoreCase : List Char → List Char → Nat
  | c :: cs, p :: ps =>
    let c1 := if 'A' ≤ c ∧ c ≤ 'Z' then Char.ofNat (c.toNat + 32) else c
    if c1 = p then 1 + commonPrefixLenIgnoreCase cs ps else 0
  | _, _ => 0

/-- The `case 'i', 'I'` arm of `special`, reached directly or by falling through from
a sign. -/
def specialInf (neg : Bool) (nsign : Nat) (s : List Char) : Option (Float32 × Nat) :=
  let n0 := commonPrefixLenIgnoreCase s "infinity".data
  let n := if 3 < n0 ∧ n0 < 8 then 3 else n0
  if n = 3 ∨ n = 8 then some (.inf neg, nsign + n) else none

/-- Go's `special(s)`: the value and the number of characters read when `s` starts
with an infinity or a NaN. -/
def special (s : List Char) : Option (Float32 × Nat) :=
  match s with
  | [] => none
  | c :: cs =>
    if c = '+' ∨ c = '-' then specialInf (c = '-') 1 cs
    else if c = 'i' ∨ c = 'I' then specialInf false 0 s
    else if c = 'n' ∨ c = 'N' then
      if commonPrefixLenIgnoreCase s "nan".data = 3 then some (.nan, 3) else none
    else none

/-- Go's `underscoreOK(s)`, the loop part: `saw` is the class of the last character
(`'0'` digit, `'_'` underscore, `'!'` other, `'^'` start). -/
def underscoreLoop (hex : Bool) : List Char → Char → Bool
  | [], saw => saw != '_'
  | c :: cs, saw =>
    if c.isDigit || (hex && decide (97 ≤ lower c ∧ lower c ≤ 102)) then
      underscoreLoop hex cs '0'
    else if c = '_' then
      if saw != '0' then false else underscoreLoop hex cs '_'
    else if saw = '_' then false
    else underscoreLoop hex cs '!'

/-- Go's `underscoreOK(s)`: underscores only between digits, or after a base
marker. -/
def underscoreOK (s : List Char) : Bool :=
  let s1 := match s with
    | c :: cs => if c = '-' ∨ c = '+' then cs else s
    | [] => s
  match s1 with
  | z :: b :: rest =>
    if z = '0' ∧ (lower b = 98 ∨ lower b = 111 ∨ lower b = 120) then
      underscoreLoop (lower b = 120) rest '0'
    else underscoreLoop false s1 '^'
  | _ => underscoreLoop false s1 '^'

/-- Local variables of the digit loop of `readFloat`. -/
structure Digits where
  sawdot : Bool
  sawdigits : Bool
  nd : Nat
  dp : Int
  mantissa : Nat
  underscores : Bool

/-- The digit loop of `readFloat`; returns the state and the unread text. -/
def readDigits (base : Nat) : List Char → Digits → Digits × List Char
  | [], st => (st, [])
  | c :: cs, st =>
    if c = '_' then readDigits base cs { st with underscores := true }
    else if c = '.' then
      if st.sawdot then (st, c :: cs)
      else readDigits base cs { st with sawdot := true, dp := st.nd }
    else if c.isDigit then
      if c = '0' ∧ st.nd = 0 then
        readDigits base cs { st with sawdigits := true, dp := st.dp - 1 }
      else
        readDigits base cs { st with sawdigits := true, nd := st.nd + 1,
                                     mantissa := st.mantissa * base + (c.toNat - 48) }
    else if base = 16 ∧ 97 ≤ lower c ∧ lower c ≤ 102 then
      readDigits base cs { st with sawdigits := true, nd := st.nd + 1,
                                   mantissa := st.mantissa * 16 + (lower c - 97 + 10) }
    else (st, c :: cs)

/-- The exponent loop of `readFloat`: the exponent stops growing at 10000. -/
def readExpDigits : List Char → Nat → Bool → Nat × Bool × List Char
  | [], e, us => (e, us, [])
  | c :: cs, e, us =>
    if c.isDigit then readExpDigits cs (if e < 10000 then e * 10 + (c.toNat - 48) else e) us
    else if c = '_' then readExpDigits cs e true
    else (e, us, c :: cs)

/-- What `readFloat` returns when it accepts: the number is
`(-1)^neg * mantissa * b^exp`, with `b = 2` for a hexadecimal literal and `b = 10`
otherwise; `rest` is the text after the number. -/
structure ReadFloat where
  mantissa : Nat
  exp : Int
  neg : Bool
  hex : Bool
  rest : List Char

/-- The end of `readFloat`: sets the exponent and checks the underscores. -/
def readFloatFinish (s : List Char) (st : Digits) (neg hex : Bool) (dp : Int) (us : Bool)
    (rest : List Char) : Option ReadFloat :=
  let ndMant : Int := if hex then (st.nd : Int) * 4 else st.nd
  let exp : Int := if st.mantissa ≠ 0 then dp - ndMant else 0
  if us && !underscoreOK (s.take (s.length - rest.length)) then none
  else some { mantissa := st.mantissa, exp := exp, neg := neg, hex := hex, rest := rest }

/-- Go's `readFloat(s)`; `none` stands for `ok = false`. -/
def readFloat (s : List Char) : Option ReadFloat :=
  match s with
  | [] => none
  | c0 :: _ =>
    let neg : Bool := c0 = '-'
    let s1 := if c0 = '+' ∨ c0 = '-' then s.tail else s
    let hex : Bool := match s1 with
      | z :: x :: _ :: _ => z = '0' ∧ lower x = 120
      | _ => false
    let base := if hex then 16 else 10
    let s2 := if hex then s1.drop 2 else s1
    let r := readDigits base s2 ⟨false, false, 0, 0, 0, false⟩
    let st := r.1
    if !st.sawdigits then none
    else
      let dp0 : Int := if st.sawdot then st.dp else st.nd
      let dp : Int := if hex then dp0 * 4 else dp0
      let expChar := if hex then 112 else 101
      match r.2 with
      | [] => if hex then none else readFloatFinish s st neg hex dp st.underscores []
      | c :: s4 =>
        if lower c = expChar then
          match s4 with
          | [] => none
          | d :: s5 =>
            let esign : Int := if d = '-' then -1 else 1
            let s6 := if d = '+' ∨ d = '-' then s5 else d :: s5
            match s6 with
            | [] => none
            | f :: _ =>
              if !f.isDigit then none
              else
                let x := readExpDigits s6 0 st.underscores
                readFloatFinish s st neg hex (dp + (x.1 : Int) * esign) x.2.1 x.2.2
        else if hex then none
        else readFloatFinish s st neg hex dp st.underscores (c :: s4)

/-- Conversion of an accepted literal: the nearest binary32 and the overflow flag
(`atofHex` for hexadecimal literals, the decimal conversion otherwise). -/
def convertFloat32 (r : ReadFloat) : Float32 × Bool :=
  let b := if r.hex then 2 else 10
  if 0 ≤ r.exp then roundFloat32 r.neg (r.mantissa * b ^ r.exp.toNat) 1
  else roundFloat32 r.neg r.mantissa (b ^ (-r.exp).toNat)

/-- Go's `strconv.ParseFloat(s, 32)`: the value and the error. As the documentation of
the package has it, a text that is not well-formed gives `ErrSyntax` (with the value
`0`), and a well-formed text more than half a unit in the last place beyond the largest
`float32` gives `f = ±Inf, err.Err = ErrRange`. -/
def ParseFloat32 (s : String) : Float32 × Option NumError :=
  match special s.data with
  | some (val, n) =>
    if n ≠ s.data.length then (Float32.zero, some .ErrSyntax) else (val, none)
  | none =>
    match readFloat s.data with
    | none => (Float32.zero, some .ErrSyntax)
    | some r =>
      let fo := convertFloat32 r
      if r.rest ≠ [] then (Float32.zero, some .ErrSyntax)
      else (fo.1, if fo.2 then some .ErrRange else none)

/-- Go's `math.IsInf(f, 0) || math.IsNaN(f)`, negated. -/
def Float32.isFinite : Float32 → Bool
  | .finite _ _ _ => true
  | _ => false

/-! ## Data model, `main.go` lines 16-28 -/

/-- A `time.Time`, as a clock reading. -/
abbrev Time := Nat

/-- Source `Dataset`: one row of rates. -/
structure Dataset where
  Currency : String
  Buy : Float32
  Sell : Float32
deriving DecidableEq

/-- Source `Bank`: the envelope. -/
structure Bank where
  Name : String
  TimeStamp : Time
  Data : List Dataset
deriving DecidableEq

/-- The zero value of `var bank Bank`, the one envelope of the process. -/
def Bank.init : Bank := ⟨"", 0, []⟩

/-! ## Environment: `goquery`, `net/http`, `encoding/json`, the process -/

/-- A `*goquery.Selection` holding one table row, as `Each` passes it to its callback.
`FindText sel` is `tr.Find(sel).Text()`; a selector that matches nothing gives the
empty text. -/
structure Row where
  FindText : String → String

/-- A parsed `goquery.Document`. `Find sel` lists the nodes `doc.Find(sel)` selects, in
document order. -/
structure Document where
  Find : String → List Row

/-- The network as one request sees it: what `http.Get` returns for a URL (an error or
a response body) and what `goquery.NewDocumentFromReader` makes of a body. -/
structure Net where
  Get : String → Except String String
  NewDocumentFromReader : String → Except String Document

/-- Outcome of a Go function in a process that `log.Fatalln` may end: the function
returns, or the process exits with a status. -/
inductive Proc (α : Type)
  | ret (a : α)
  | exit (status : Nat)
deriving DecidableEq

/-- What a handler writes to the response: the JSON text of an envelope (kept as the
encoded value) or literal text. -/
inductive Body
  | json (v : Bank)
  | text (s : String)
deriving DecidableEq

/-- Go's `json.Marshal(bank)`: the encoder rejects a float that is infinite or NaN
(`UnsupportedValueError`); `none` stands for the error, which comes with nil bytes. -/
def jsonMarshal (v : Bank) : Option Body :=
  if v.Data.all (fun d => d.Buy.isFinite && d.Sell.isFinite) then some (.json v) else none

/-- Go's `string(hasil)` for the two results of `json.Marshal`. -/
def bytesToString (hasil : Option Body) : Body :=
  match hasil with
  | some b => b
  | none => .text ""

/-! ## `main.go`, lines 38-50: `httpGet` -/

/-- Source `httpGet`: both failures end the process through `log.Fatalln` (exit status
1); on return the error is nil. -/
def httpGet (net : Net) (targetUri : String) : Proc (Document × Option String) :=
  match net.Get targetUri with
  | .error _ => .exit 1
  | .ok body =>
    match net.NewDocumentFromReader body with
    | .error _ => .exit 1
    | .ok doc => .ret (doc, none)

/-! ## `main.go`, lines 52-150: the four extractors

`rowX` is the callback given to `Each`, `eachX` the loop around it, `getX` the whole
function; the envelope `bank` is threaded through as state. `ParseFloat(s, 32)` returns
a `float64` that holds a `float32` value, so the conversion `float32(buy)` keeps it. -/

/-- The callback of `getBCA` (lines 64-70), without the append. -/
def rowBCA (tr : Row) : Dataset :=
  let td : Dataset := ⟨"", Float32.zero, Float32.zero⟩
  let td := { td with Currency := tr.FindText "td:first-child span p" }
  let buy := (ParseFloat32 (normalizeDot (tr.FindText "td:nth-child(2) p"))).1
  let td := { td with Buy := buy }
  let sell := (ParseFloat32 (normalizeDot (tr.FindText "td:nth-child(3) p"))).1
  let td := { td with Sell := sell }
  td

/-- The callback of `getBI` (lines 89-95), without the append. -/
def rowBI (tr : Row) : Dataset :=
  let td : Dataset := ⟨"", Float32.zero, Float32.zero⟩
  let td := { td with Currency := stringsTrim (tr.FindText "td:first-child") " " }
  let buy := (ParseFloat32 (normalizeDot (tr.FindText "td:nth-child(4)"))).1
  let td := { td with Buy := buy }
  let sell := (ParseFloat32 (normalizeDot (tr.FindText "td:nth-child(3)"))).1
  let td := { td with Sell := sell }
  td

/-- The callback of `getBNI` (lines 114-120), without the append. -/
def rowBNI (tr : Row) : Dataset :=
  let td : Dataset := ⟨"", Float32.zero, Float32.zero⟩
  let td := { td with Currency := tr.FindText "td:first-child" }
  let buy := (ParseFloat32 (normalizeDot (tr.FindText "td:nth-child(2)"))).1
  let td := { td with Buy := buy }
  let sell := (ParseFloat32 (normalizeDot (tr.FindText "td:nth-child(3)"))).1
  let td := { td with Sell := sell }
  td

/-- The callback of `getMEGA` (lines 139-145), without the append. -/
def rowMEGA (tr : Row) : Dataset :=
  let td : Dataset := ⟨"", Float32.zero, Float32.zero⟩
  let td := { td with Currency := tr.FindText "td:first-child" }
  let buy := (ParseFloat32 (normalize (tr.FindText "td:nth-child(2)"))).1
  let td := { td with Buy := buy }
  let sell := (ParseFloat32 (normalize (tr.FindText "td:nth-child(3)"))).1
  let td := { td with Sell := sell }
  td

/-- Lines 60-71 of `getBCA`: `rows` after `pageCounts.Each`. -/
def eachBCA (doc : Document) : List Dataset :=
  let rows : List Dataset := []
  let pageCounts := doc.Find ".m-table-kurs tbody tr"
  pageCounts.foldl (fun rows tr => rows ++ [rowBCA tr]) rows

/-- Lines 85-96 of `getBI`: `rows` after `pageCounts.Each`. -/
def eachBI (doc : Document) : List Dataset :=
  let rows : List Dataset := []
  let pageCounts := doc.Find ".table-lg tbody tr"
  pageCounts.foldl (fun rows tr => rows ++ [rowBI tr]) rows

/-- Lines 110-121 of `getBNI`: `rows` after `pageCounts.Each`. -/
def eachBNI (doc : Document) : List Dataset :=
  let rows : List Dataset := []
  let pageCounts := doc.Find "#dnn_ctr3510_BNIValasInfoView_divBankNotes table tbody tr"
  pageCounts.foldl (fun rows tr => rows ++ [rowBNI tr]) rows

/-- Lines 135-146 of `getMEGA`: `rows` after `pageCounts.Each`. -/
def eachMEGA (doc : Document) : List Dataset :=
  let rows : List Dataset := []
  let pageCounts := doc.Find "table tbody tr"
  pageCounts.foldl (fun rows tr => rows ++ [rowMEGA tr]) rows

/-- Source `getBCA`: the response text and the envelope it leaves behind, or the exit
of the process. -/
def getBCA (net : Net) (now : Time) (bank : Bank) : Proc (Body × Bank) :=
  match httpGet net "https://www.bca.co.id/id/informasi/kurs" with
  | .exit status => .exit status
  | .ret (doc, err) =>
    if err.isSome then .exit 1
    else
      let bank := { bank with Name := "BCA - Bank Central Asia" }
      let bank := { bank with TimeStamp := now }
      let rows := eachBCA doc
      let bank := { bank with Data := rows }
      let hasil := jsonMarshal bank
      .ret (bytesToString hasil, bank)

/-- Source `getBI`. -/
def getBI (net : Net) (now : Time) (bank : Bank) : Proc (Body × Bank) :=
  match httpGet net
      "https://www.bi.go.id/id/statistik/informasi-kurs/transaksi-bi/default.aspx" with
  | .exit status => .exit status
  | .ret (doc, err) =>
    if err.isSome then .exit 1
    else
      let bank := { bank with Name := "BI - Bank Indonesia" }
      let bank := { bank with TimeStamp := now }
      let rows := eachBI doc
      let bank := { bank with Data := rows }
      let hasil := jsonMarshal bank
      .ret (bytesToString hasil, bank)

/-- Source `getBNI`. -/
def getBNI (net : Net) (now : Time) (bank : Bank) : Proc (Body × Bank) :=
  match httpGet net "https://www.bni.co.id/id-id/beranda/informasivalas" with
  | .exit status => .exit status
  | .ret (doc, err) =>
    if err.isSome then .exit 1
    else
      let bank := { bank with Name := "BNI - Bank Negara Indonesia" }
      let bank := { bank with TimeStamp := now }
      let rows := eachBNI doc
      let bank := { bank with Data := rows }
      let hasil := jsonMarshal bank
      .ret (bytesToString hasil, bank)

/-- Source `getMEGA`. -/
def getMEGA (net : Net) (now : Time) (bank : Bank) : Proc (Body × Bank) :=
  match httpGet net "https://www.bankmega.com/id/bisnis/treasury/" with
  | .exit status => .exit status
  | .ret (doc, err) =>
    if err.isSome then .exit 1
    else
      let bank := { bank with Name := "MEGA - Bank Mega" }
      let bank := { bank with TimeStamp := now }
      let rows := eachMEGA doc
      let bank := { bank with Data := rows }
      let hasil := jsonMarshal bank
      .ret (bytesToString hasil, bank)

/-! ## Packages `html` and `strconv`: `EscapeString` and the `%q` verb -/

/-- One step of `html.EscapeString`, whose replacer maps `&`, `'`, `<`, `>` and `"` to
`&amp;`, `&#39;`, `&lt;`, `&gt;` and `&#34;`. -/
def escapeChar (c : Char) : List Char :=
  if c = '&' then "&amp;".data
  else if c = Char.ofNat 39 then "&#39;".data
  else if c = '<' then "&lt;".data
  else if c = '>' then "&gt;".data
  else if c = Char.ofNat 34 then "&#34;".data
  else [c]

/-- Go's `html.EscapeString(s)`. -/
def htmlEscapeString (s : String) : String :=
  ⟨s.data.flatMap escapeChar⟩

/-- Go's `strconv.IsPrint(r)`: decided by ranges up to U+00FF, by the tables of the
package above; `table` stands for the lookup in those tables. -/
def isPrint (table : Char → Bool) (r : Char) : Bool :=
  if r.toNat ≤ 255 then
    if 32 ≤ r.toNat ∧ r.toNat ≤ 126 then true
    else if 161 ≤ r.toNat ∧ r.toNat ≤ 255 then r.toNat ≠ 173
    else false
  else table r

/-- Go's `lowerhex[n]`. -/
def lowerhex (n : Nat) : Char :=
  "0123456789abcdef".data.getD n '0'

/-- The `k` lowest hexadecimal digits of `n`, most significant first. -/
def hexDigits : Nat → Nat → List Char
  | 0, _ => []
  | k + 1, n => hexDigits k (n / 16) ++ [lowerhex (n % 16)]

/-- Go's `appendEscapedRune(buf, r, '"', false, false)`: what `strconv.Quote` writes
for one rune. -/
def appendEscapedRune (table : Char → Bool) (r : Char) : List Char :=
  if r = Char.ofNat 34 ∨ r = Char.ofNat 92 then [Char.ofNat 92, r]
  else if isPrint table r then [r]
  else if r.toNat = 7 then [Char.ofNat 92, 'a']
  else if r.toNat = 8 then [Char.ofNat 92, 'b']
  else if r.toNat = 12 then [Char.ofNat 92, 'f']
  else if r.toNat = 10 then [Char.ofNat 92, 'n']
  else if r.toNat = 13 then [Char.ofNat 92, 'r']
  else if r.toNat = 9 then [Char.ofNat 92, 't']
  else if r.toNat = 11 then [Char.ofNat 92, 'v']
  else if r.toNat < 32 ∨ r.toNat = 127 then Char.ofNat 92 :: 'x' :: hexDigits 2 r.toNat
  else if r.toNat < 65536 then Char.ofNat 92 :: 'u' :: hexDigits 4 r.toNat
  else Char.ofNat 92 :: 'U' :: hexDigits 8 r.toNat

/-- Go's `strconv.Quote(s)`, which the verb `%q` applies to a string: a double-quoted
Go string literal. -/
def strconvQuote (table : Char → Bool) (s : String) : String :=
  ⟨Char.ofNat 34 :: s.data.flatMap (appendEscapedRune table) ++ [Char.ofNat 34]⟩

/-! ## `main.go`, lines 152-198: the handlers and the server -/

/-- The handler of the pattern `/` (lines 156-166), given the request path. -/
def handleRoot (table : Char → Bool) (path : String) : Body :=
  let rp := htmlEscapeString path
  if rp = "/" then .text "\x7b\"code\": 200, \"message\": \"Go Scrap Kurs\"\x7d"
  else .text ("\x7b\"code\": 404, \"message\": \"Page Not Found\", \"path\": "
                ++ strconvQuote table rp ++ "\x7d")

/-- One inbound request: its path, and the network and the clock as they are while it
is handled. -/
structure Request where
  path : String
  net : Net
  now : Time

/-- The routes registered on the mux: the four exact paths, and `/` for every other
path. (The redirect with which `http.ServeMux` itself answers a path that is not in
canonical form is outside the model.) -/
def serveMux (table : Char → Bool) (req : Request) (bank : Bank) : Proc (Body × Bank) :=
  if req.path = "/bca" then getBCA req.net req.now bank
  else if req.path = "/bi" then getBI req.net req.now bank
  else if req.path = "/bni" then getBNI req.net req.now bank
  else if req.path = "/mega" then getMEGA req.net req.now bank
  else .ret (handleRoot table req.path, bank)

/-- The process serving requests one after another from the envelope `bank`: the
response to each request (`none` when none is written) and the exit status, if the
process ended. Once the process has exited nothing is served. -/
def serve (table : Char → Bool) : Bank → List Request → List (Option Body) × Option Nat
  | _, [] => ([], none)
  | bank, req :: rest =>
    match serveMux table req bank with
    | .ret (body, bank1) =>
      let r := serve table bank1 rest
      (some body :: r.1, r.2)
    | .exit status => (none :: rest.map (fun _ => none), some status)

/-! ## Two handlers at once: statement-level interleaving on the shared envelope -/

/-- The four sources. -/
inductive Source
  | BCA
  | BI
  | BNI
  | MEGA
deriving DecidableEq

/-- The URL each extractor fetches. -/
def Source.url : Source → String
  | .BCA => "https://www.bca.co.id/id/informasi/kurs"
  | .BI => "https://www.bi.go.id/id/statistik/informasi-kurs/transaksi-bi/default.aspx"
  | .BNI => "https://www.bni.co.id/id-id/beranda/informasivalas"
  | .MEGA => "https://www.bankmega.com/id/bisnis/treasury/"

/-- The name each extractor stores in the envelope. -/
def Source.bankName : Source → String
  | .BCA => "BCA - Bank Central Asia"
  | .BI => "BI - Bank Indonesia"
  | .BNI => "BNI - Bank Negara Indonesia"
  | .MEGA => "MEGA - Bank Mega"

/-- The row loop of each extractor. -/
def Source.each : Source → Document → List Dataset
  | .BCA => eachBCA
  | .BI => eachBI
  | .BNI => eachBNI
  | .MEGA => eachMEGA

/-- The path of the route that runs each extractor. -/
def Source.route : Source → String
  | .BCA => "/bca"
  | .BI => "/bi"
  | .BNI => "/bni"
  | .MEGA => "/mega"

/-- The extractor of each source, run without interruption. -/
def Source.get : Source → Net → Time → Bank → Proc (Body × Bank)
  | .BCA => getBCA
  | .BI => getBI
  | .BNI => getBNI
  | .MEGA => getMEGA

/-- Where a running extractor stands: before the statement named. -/
inductive Pc
  | fetch
  | setName
  | setTime
  | extract
  | setData
  | marshal
  | done
deriving DecidableEq

/-- A goroutine running one extractor: its source, its environment, its position and
its local variables `doc`, `rows` and the returned text. -/
structure Thread where
  src : Source
  net : Net
  now : Time
  pc : Pc
  doc : Document
  rows : List Dataset
  out : Option Body

/-- A goroutine about to start the extractor of `src`. -/
def Thread.start (src : Source) (net : Net) (now : Time) : Thread :=
  ⟨src, net, now, .fetch, ⟨fun _ => []⟩, [], none⟩

/-- One statement of the extractor, executed on the shared envelope. -/
def Thread.step (t : Thread) (bank : Bank) : Proc (Thread × Bank) :=
  match t.pc with
  | .fetch =>
    match httpGet t.net t.src.url with
    | .exit status => .exit status
    | .ret (doc, err) =>
      if err.isSome then .exit 1 else .ret ({ t with doc := doc, pc := .setName }, bank)
  | .setName => .ret ({ t with pc := .setTime }, { bank with Name := t.src.bankName })
  | .setTime => .ret ({ t with pc := .extract }, { bank with TimeStamp := t.now })
  | .extract => .ret ({ t with rows := t.src.each t.doc, pc := .setData }, bank)
  | .setData => .ret ({ t with pc := .marshal }, { bank with Data := t.rows })
  | .marshal =>
    .ret ({ t with out := some (bytesToString (jsonMarshal bank)), pc := .done }, bank)
  | .done => .ret (t, bank)

/-- Two goroutines on one envelope; the schedule says who executes the next statement
(`false` the first, `true` the second). -/
def interleave : List Bool → Thread → Thread → Bank → Proc (Thread × Thread × Bank)
  | [], a, b, bank => .ret (a, b, bank)
  | false :: sched, a, b, bank =>
    match a.step bank with
    | .exit status => .exit status
    | .ret (a1, bank1) => interleave sched a1 b bank1
  | true :: sched, a, b, bank =>
    match b.step bank with
    | .exit status => .exit status
    | .ret (b1, bank1) => interleave sched a b1 bank1

/-- The responses the two goroutines have returned at the end of a schedule. -/
def responses (r : Proc (Thread × Thread × Bank)) : Option (Option Body × Option Body) :=
  match r with
  | .ret (a, b, _) => some (a.out, b.out)
  | .exit _ => none

/-- One goroutine alone, for `n` statements. -/
def Thread.run : Nat → Thread → Bank → Proc (Thread × Bank)
  | 0, t, bank => .ret (t, bank)
  | n + 1, t, bank =>
    match t.step bank with
    | .exit status => .exit status
    | .ret (t1, bank1) => Thread.run n t1 bank1

/-! ## Predicates used in the statements -/

/-- The fetch of `url` succeeds and parses to `doc`. -/
def Fetches (net : Net) (url : String) (doc : Document) : Prop :=
  ∃ body, net.Get url = .ok body ∧ net.NewDocumentFromReader body = .ok doc

/-- The fetch of `url` fails: `http.Get` returns an error, or the body it returns does
not parse. -/
def FetchFails (net : Net) (url : String) : Prop :=
  (∃ e, net.Get url = .error e) ∨
    ∃ body e, net.Get url = .ok body ∧ net.NewDocumentFromReader body = .error e

/-- The envelope an extractor builds from a fetched document. -/
def Source.envelope (src : Source) (now : Time) (doc : Document) : Bank :=
  ⟨src.bankName, now, src.each doc⟩

/-- The call returned, the envelope it leaves holds one record per row of `rows`, the
record at each position being `f` of the row at that position, and the text returned
is what `json.Marshal` makes of that envelope (empty when the encoder rejects it). -/
def RecordsFollowRows (r : Proc (Body × Bank)) (rows : List Row) (f : Row → Dataset) : Prop :=
  ∃ body bank1, r = .ret (body, bank1) ∧ bank1.Data.length = rows.length ∧
    (∀ i : Nat, bank1.Data[i]? = (rows[i]?).map f) ∧
    body = bytesToString (jsonMarshal bank1)

/-- The texts that may follow `&` in the output of `html.EscapeString`. -/
def entityBodies : List (List Char) :=
  ["amp;".data, "#39;".data, "lt;".data, "gt;".data, "#34;".data]

/-- Every `&` of the text starts one of the five entities. -/
def ampersandsStartEntities : List Char → Bool
  | [] => true
  | c :: cs =>
    (c != '&' || entityBodies.any (fun e => e.isPrefixOf cs)) && ampersandsStartEntities cs

/-- A printable ASCII character other than the backslash. -/
def isPlainAscii (c : Char) : Prop :=
  32 ≤ c.toNat ∧ c.toNat ≤ 126 ∧ c ≠ Char.ofNat 92

/-- The text has none of `<`, `>`, `"` and `'`. -/
def noMarkupChar (l : List Char) : Prop :=
  '<' ∉ l ∧ '>' ∉ l ∧ Char.ofNat 34 ∉ l ∧ Char.ofNat 39 ∉ l

/-- What replacing every `c` by `new` does to one character. -/
def substChar (c : Char) (new : List Char) (x : Char) : List Char :=
  if x = c then new else [x]

/-- The letters `strconv.Quote` writes after a backslash. -/
def escapeLetters : List Char := ['a', 'b', 'f', 'n', 'r', 't', 'v', 'x', 'u', 'U']

/-- What `strconv.Quote` writes for the rune `r` is `l`: one of three shapes. -/
def QuoteShape (r : Char) (l : List Char) : Prop :=
  l = [Char.ofNat 92, r] ∨ l = [r] ∨
    ∃ c tail, c ∈ escapeLetters ∧ l = Char.ofNat 92 :: c :: tail ∧
      ∀ y ∈ tail, y ∈ "0123456789abcdef".data

/-! ## Sample inputs -/

/-- A row given by the text of its cells, selector by selector. -/
def rowOf (cells : List (String × String)) : Row :=
  ⟨fun sel => (cells.lookup sel).getD ""⟩

/-- A document given by the rows each locator selects. -/
def docOf (tables : List (String × List Row)) : Document :=
  ⟨fun sel => (tables.lookup sel).getD []⟩

/-- A network on which every fetch succeeds with `doc`. -/
def netOf (doc : Document) : Net :=
  ⟨fun _ => .ok "<html>", fun _ => .ok doc⟩

/-- A network on which `http.Get` fails. -/
def netDown : Net :=
  ⟨fun _ => .error "dial tcp: connection refused", fun _ => .ok ⟨fun _ => []⟩⟩

/-- A table-lookup for `strconv.IsPrint` above U+00FF. -/
def printTable : Char → Bool := fun _ => true

/-- A BI page with two rows: sell rate in column 3, buy rate in column 4. -/
def sampleBI : Document :=
  docOf [(".table-lg tbody tr",
    [rowOf [("td:first-child", "  USD  "), ("td:nth-child(3)", "100"),
            ("td:nth-child(4)", "200")],
     rowOf [("td:first-child", "\tEUR\n"), ("td:nth-child(3)", "17.250,50"),
            ("td:nth-child(4)", "n/a")]])]

/-- A BCA page with two rows: padded currency text, and a buy cell `1e39`. -/
def sampleBCA : Document :=
  docOf [(".m-table-kurs tbody tr",
    [rowOf [("td:first-child span p", " USD\n"), ("td:nth-child(2) p", "15.750,00"),
            ("td:nth-child(3) p", "15.850,00")],
     rowOf [("td:first-child span p", ""), ("td:nth-child(2) p", "1e39")]])]

/-! ## Checks of the library models on concrete inputs -/

example : normalize "1,234.56" = "1234.56" := by decide
example : normalizeDot "1.234,56" = "1234.56" := by decide
example : normalizeDot "1234.56" = "123456" := by decide
example : stringsTrim "  US D \t " " " = "US D \t" := by decide
example : stringsReplace "abc" "" "X" (-1) = "XaXbXcX" := by decide
example : stringsReplace "aaaa" "aa" "b" (-1) = "bb" := by decide
example : stringsReplace "aaaa" "a" "b" 2 = "bbaa" := by decide
example : ParseFloat32 "15750.25" = (.finite false 16128256 (-10), none) := by decide
example : ParseFloat32 "0.1" = (.finite false 13421773 (-27), none) := by decide
example : ParseFloat32 "16777217" = (.finite false 8388608 1, none) := by decide
example : ParseFloat32 "1_000" = (.finite false 16384000 (-14), none) := by decide
example : ParseFloat32 "0x1.8p1" = (.finite false 12582912 (-22), none) := by decide
example : ParseFloat32 "-Infinity" = (.inf true, none) := by decide
example : ParseFloat32 "NaN" = (.nan, none) := by decide
example : ParseFloat32 "infinit" = (Float32.zero, some .ErrSyntax) := by decide
example : ParseFloat32 "1.234,56" = (Float32.zero, some .ErrSyntax) := by decide
example : ParseFloat32 " 12" = (Float32.zero, some .ErrSyntax) := by decide
set_option maxRecDepth 100000 in
example : ParseFloat32 "1e-45" = (.finite false 1 (-149), none) := by decide
example : strconvQuote printTable "a\\b\n" = "\"a\\\\b\\n\"" := by decide

/-! ## Lemmas on single-character replacement -/

theorem isPrefixOf_single (c x : Char) (cs : List Char) :
    [c].isPrefixOf (x :: cs) = decide (x = c) := by
  by_cases h : x = c
  · subst h; simp [List.isPrefixOf]
  · have h2 : ¬ c = x := fun e => h e.symm
    simp [List.isPrefixOf, h, h2]

theorem countFrom_single (c : Char) (s : List Char) :
    countFrom [c] 0 s = s.count c := by
  induction s with
  | nil => simp [countFrom]
  | cons x xs ih =>
    by_cases h : x = c
    · subst h; simp [countFrom, isPrefixOf_single, ih]; omega
    · simp [countFrom, isPrefixOf_single, h, ih, List.count_cons]

theorem replaceFrom_single (c : Char) (new : List Char) (s : List Char) :
    ∀ n, s.count c ≤ n → replaceFrom [c] new n 0 s = s.flatMap (substChar c new) := by
  induction s with
  | nil => intro n _; cases n <;> simp [replaceFrom]
  | cons x xs ih =>
    intro n hn
    by_cases h : x = c
    · subst h
      cases n with
      | zero => simp at hn
      | succ k =>
        have hk : xs.count x ≤ k := by simp at hn; omega
        simp [replaceFrom, isPrefixOf_single, ih k hk, substChar]
    · have hk : xs.count c ≤ n := by simpa [List.count_cons, h] using hn
      cases n with
      | zero =>
        have h0 : ∀ y ∈ xs, y ≠ c := by
          intro y hy e
          have : 0 < xs.count c := List.count_pos_iff.mpr (e ▸ hy)
          omega
        have hx : xs.flatMap (substChar c new) = xs := by
          clear ih hn hk
          induction xs with
          | nil => rfl
          | cons y ys ihy =>
            have hy : y ≠ c := h0 y (by simp)
            simp [List.flatMap_cons, substChar, hy]
            exact ihy (fun z hz => h0 z (by simp [hz]))
        simp [replaceFrom, List.flatMap_cons, substChar, h, hx]
      | succ k =>
        simp [replaceFrom, isPrefixOf_single, h, ih (k + 1) hk, substChar]

/-- With a one-character `old` different from `new`, `strings.Replace(s, old, new, -1)`
substitutes every occurrence. -/
theorem stringsReplace_single (s : String) (c : Char) (new : String)
    (hne : String.singleton c ≠ new) :
    stringsReplace s (String.singleton c) new (-1)
      = ⟨s.data.flatMap (substChar c new.data)⟩ := by
  have hd : (String.singleton c).data = [c] := rfl
  unfold stringsReplace
  simp only [hne, hd, countFrom_single, false_or]
  rw [if_neg (by decide)]
  by_cases hm : s.data.count c = 0
  · simp only [hm, if_true]
    have := replaceFrom_single c new.data s.data 0 (by omega)
    rw [← this]
    simp [replaceFrom]
  · simp only [hm, if_false]
    simp [replaceFrom_single c new.data s.data _ (le_refl _)]

theorem normalize_eq_spec (s : String) : normalize s = specVariantA s := by
  have h := stringsReplace_single s ',' "" (by decide)
  have e : String.singleton ',' = "," := rfl
  rw [e] at h
  unfold normalize specVariantA
  rw [h]
  congr 1
  induction s.data with
  | nil => rfl
  | cons x xs ih =>
    by_cases hx : x = ','
    · simp [List.flatMap_cons, substChar, hx, ih]
    · simp [List.flatMap_cons, substChar, hx, ih]

theorem normalizeDot_eq_spec (s : String) : normalizeDot s = specVariantB s := by
  have e1 : String.singleton '.' = "." := rfl
  have e2 : String.singleton ',' = "," := rfl
  have h1 := stringsReplace_single s '.' "" (by decide)
  rw [e1] at h1
  unfold normalizeDot specVariantB
  rw [h1]
  have h2 := stringsReplace_single ⟨s.data.flatMap (substChar '.' "".data)⟩ ',' "." (by decide)
  rw [e2] at h2
  rw [h2]
  congr 1
  induction s.data with
  | nil => rfl
  | cons x xs ih =>
    by_cases hx : x = '.'
    · subst hx
      simpa [List.flatMap_cons, substChar] using ih
    · by_cases hy : x = ','
      · subst hy
        simpa [List.flatMap_cons, substChar] using ih
      · simpa [List.flatMap_cons, substChar, hx, hy] using ih

/-! ## Lemmas on the extractors -/

theorem foldl_append_singleton {α β : Type} (f : α → β) (l : List α) (init : List β) :
    l.foldl (fun rows tr => rows ++ [f tr]) init = init ++ l.map f := by
  induction l generalizing init with
  | nil => simp
  | cons x xs ih => simp [ih]

theorem eachBCA_eq_map (doc : Document) :
    eachBCA doc = (doc.Find ".m-table-kurs tbody tr").map rowBCA := by
  simp [eachBCA, foldl_append_singleton]

theorem eachBI_eq_map (doc : Document) :
    eachBI doc = (doc.Find ".table-lg tbody tr").map rowBI := by
  simp [eachBI, foldl_append_singleton]

theorem eachBNI_eq_map (doc : Document) :
    eachBNI doc
      = (doc.Find "#dnn_ctr3510_BNIValasInfoView_divBankNotes table tbody tr").map rowBNI := by
  simp [eachBNI, foldl_append_singleton]

theorem eachMEGA_eq_map (doc : Document) :
    eachMEGA doc = (doc.Find "table tbody tr").map rowMEGA := by
  simp [eachMEGA, foldl_append_singleton]

theorem httpGet_of_fetches {net : Net} {url : String} {doc : Document}
    (h : Fetches net url doc) : httpGet net url = .ret (doc, none) := by
  obtain ⟨body, h1, h2⟩ := h
  simp [httpGet, h1, h2]

theorem httpGet_of_fetchFails {net : Net} {url : String}
    (h : FetchFails net url) : httpGet net url = .exit 1 := by
  rcases h with ⟨e, h1⟩ | ⟨body, e, h1, h2⟩
  · simp [httpGet, h1]
  · simp [httpGet, h1, h2]

theorem get_of_fetches (src : Source) {net : Net} {doc : Document} (now : Time) (bank : Bank)
    (h : Fetches net src.url doc) :
    src.get net now bank
      = .ret (bytesToString (jsonMarshal (src.envelope now doc)), src.envelope now doc) := by
  have hg := httpGet_of_fetches h
  cases src <;>
    simp only [Source.url] at hg <;>
    simp [Source.get, getBCA, getBI, getBNI, getMEGA, hg, Source.envelope, Source.bankName,
      Source.each]

theorem get_of_fetchFails (src : Source) {net : Net} (now : Time) (bank : Bank)
    (h : FetchFails net src.url) : src.get net now bank = .exit 1 := by
  have hg := httpGet_of_fetchFails h
  cases src <;>
    simp only [Source.url] at hg <;>
    simp [Source.get, getBCA, getBI, getBNI, getMEGA, hg]

theorem recordsFollowRows_get (src : Source) {net : Net} {doc : Document} (now : Time)
    (bank : Bank) (h : Fetches net src.url doc) (rows : List Row) (f : Row → Dataset)
    (he : src.each doc = rows.map f) :
    RecordsFollowRows (src.get net now bank) rows f := by
  refine ⟨_, _, get_of_fetches src now bank h, ?_, ?_, rfl⟩
  · simp [Source.envelope, he]
  · intro i
    simp [Source.envelope, he, List.getElem?_map]

/-! ## Lemmas on `ParseFloat32` -/

/-- The fuel `n` is enough for `bitLength` to count the binary digits of `n`. -/
theorem bitLength_spec (fuel n : Nat) (h : n ≤ fuel) (hn : n ≠ 0) :
    2 ^ (bitLength fuel n - 1) ≤ n ∧ n < 2 ^ bitLength fuel n := by
  induction fuel generalizing n with
  | zero => omega
  | succ fuel ih =>
    simp only [bitLength, hn, if_false]
    by_cases h2 : n / 2 = 0
    · have h1 : n = 1 := by omega
      subst h1
      cases fuel <;> simp [bitLength]
    · have hle : n / 2 ≤ fuel := by omega
      obtain ⟨ih1, ih2⟩ := ih (n / 2) hle h2
      have hb : bitLength fuel (n / 2) ≠ 0 := by
        intro e
        rw [e] at ih2
        omega
      obtain ⟨b, hb1⟩ := Nat.exists_eq_succ_of_ne_zero hb
      rw [hb1] at ih1 ih2 ⊢
      simp only [Nat.succ_sub_one, Nat.add_sub_cancel_left] at ih1 ⊢
      have e1 : 2 ^ (b + 1) = 2 * 2 ^ b := by rw [pow_succ]; ring
      have e2 : 2 ^ (1 + (b + 1)) = 2 * (2 * 2 ^ b) := by
        rw [show 1 + (b + 1) = (b + 1) + 1 by omega, pow_succ, pow_succ]; ring
      have e3 : 2 ^ b.succ = 2 * 2 ^ b := e1
      rw [e1] at ih2
      rw [e2, e3]
      constructor <;> omega

theorem roundFloat32_overflow (neg : Bool) (num den : Nat)
    (h : (roundFloat32 neg num den).2 = true) : (roundFloat32 neg num den).1 = .inf neg := by
  unfold roundFloat32 at h ⊢
  by_cases h0 : num = 0
  · simp [h0] at h
  · simp only [h0, if_false] at h ⊢
    split_ifs at h ⊢ <;> simp_all

theorem convertFloat32_overflow (r : ReadFloat) (h : (convertFloat32 r).2 = true) :
    (convertFloat32 r).1 = .inf r.neg := by
  unfold convertFloat32 at h ⊢
  split_ifs at h ⊢ <;> exact roundFloat32_overflow _ _ _ h

/-- A syntax error comes with the value zero. -/
theorem parseFloat32_errSyntax_value (s : String) (h : (ParseFloat32 s).2 = some .ErrSyntax) :
    (ParseFloat32 s).1 = Float32.zero := by
  unfold ParseFloat32 at h ⊢
  split at h
  · split_ifs at h ⊢
    all_goals simp_all
  · split at h
    · rfl
    · split_ifs at h ⊢
      all_goals simp_all

/-- A range error comes with an infinity. -/
theorem parseFloat32_errRange_value (s : String) (h : (ParseFloat32 s).2 = some .ErrRange) :
    ∃ neg, (ParseFloat32 s).1 = .inf neg := by
  unfold ParseFloat32 at h ⊢
  split at h
  · split_ifs at h
    all_goals simp_all
  · split at h
    · simp at h
    · rename_i r hr
      by_cases h1 : r.rest ≠ []
      · simp [h1] at h
      · by_cases h2 : (convertFloat32 r).2 = true
        · exact ⟨r.neg, by simp [h1, convertFloat32_overflow r h2]⟩
        · simp [h1, h2] at h

/-! ## The normalizers (claims C1, C2, C6) -/

theorem normalize_of_no_comma (s : String) (h : ',' ∉ s.data) : normalize s = s := by
  rw [normalize_eq_spec]
  unfold specVariantA
  have : s.data.filter (fun c => c != ',') = s.data := by
    rw [List.filter_eq_self]
    intro a ha
    have : a ≠ ',' := fun e => h (e ▸ ha)
    simpa using this
  rw [this]

theorem normalizeDot_of_no_separator (s : String) (hc : ',' ∉ s.data) (hd : '.' ∉ s.data) :
    normalizeDot s = s := by
  rw [normalizeDot_eq_spec]
  unfold specVariantB
  have h1 : s.data.filter (fun c => c != '.') = s.data := by
    rw [List.filter_eq_self]
    intro a ha
    have : a ≠ '.' := fun e => hd (e ▸ ha)
    simpa using this
  have h2 : s.data.map (fun c => if c = ',' then '.' else c) = s.data := by
    conv_rhs => rw [← List.map_id s.data]
    apply List.map_congr_left
    intro a ha
    have : a ≠ ',' := fun e => hc (e ▸ ha)
    simp [this]
  rw [h1, h2]

theorem no_comma_of_isNormalizedDecimal (s : String) (h : isNormalizedDecimal s = true) :
    ',' ∉ s.data := by
  intro hmem
  unfold isNormalizedDecimal at h
  simp only [Bool.and_eq_true, List.all_eq_true] at h
  have := h.1 ',' hmem
  revert this
  decide

/-- Claim C1. `normalizeDot` removes every `.` and then turns every `,` into `.`, all
other characters staying in place; `"1.234,56"` becomes `"1234.56"`, which
`ParseFloat(_, 32)` accepts with the float32 nearest to 1234.56 (within half a unit in
the last place, `2^-14`). -/
theorem normalizeDot_removes_dots_then_turns_commas :
    (∀ s : String, normalizeDot s
        = ⟨(s.data.filter (fun c => c != '.')).map (fun c => if c = ',' then '.' else c)⟩) ∧
    normalizeDot "1.234,56" = "1234.56" ∧
    ParseFloat32 (normalizeDot "1.234,56") = (.finite false 10113516 (-13), none) ∧
    (Float32.finite false 10113516 (-13)).toRat = some (2528379 / 2048) ∧
    |(2528379 / 2048 : ℚ) - 1234.56| ≤ 1 / 2 ^ 14 := by
  refine ⟨normalizeDot_eq_spec, by decide, by decide, ?_, ?_⟩
  · simp only [Float32.toRat]
    norm_num
  · rw [abs_le]
    constructor <;> norm_num

/-- Claim C2. `normalize` removes every `,` and keeps every other character, `.`
included, in place; `"1,234.56"` becomes `"1234.56"`, which `ParseFloat(_, 32)` accepts
with the float32 nearest to 1234.56 (within half a unit in the last place, `2^-14`). -/
theorem normalize_removes_commas :
    (∀ s : String, normalize s = ⟨s.data.filter (fun c => c != ',')⟩) ∧
    (∀ s : String, (normalize s).data.count '.' = s.data.count '.') ∧
    normalize "1,234.56" = "1234.56" ∧
    ParseFloat32 (normalize "1,234.56") = (.finite false 10113516 (-13), none) ∧
    (Float32.finite false 10113516 (-13)).toRat = some (2528379 / 2048) ∧
    |(2528379 / 2048 : ℚ) - 1234.56| ≤ 1 / 2 ^ 14 := by
  refine ⟨normalize_eq_spec, ?_, by decide, by decide, ?_, ?_⟩
  · intro s
    rw [normalize_eq_spec]
    unfold specVariantA
    simp only
    induction s.data with
    | nil => rfl
    | cons x xs ih =>
      by_cases hx : x = ','
      · subst hx
        simp [List.filter_cons, ih, List.count_cons]
      · simp [List.filter_cons, hx, ih, List.count_cons]
  · simp only [Float32.toRat]
    norm_num
  · rw [abs_le]
    constructor <;> norm_num

/-- Claim C6, refuted as stated: `"1234.56"` is an already-normalized decimal, and
`normalizeDot` changes it to `"123456"`. -/
theorem normalizeDot_changes_normalized_decimal :
    isNormalizedDecimal "1234.56" = true ∧
    normalizeDot "1234.56" = "123456" ∧
    normalizeDot "1234.56" ≠ "1234.56" ∧
    normalizeDot (normalizeDot "1.234,56") ≠ normalizeDot "1.234,56" := by
  decide

/-- Claim C6, amended. `normalize` leaves unchanged every text without `,`, so every
already-normalized decimal, and applying it twice is applying it once; `normalizeDot`
leaves unchanged every text with neither `,` nor `.`, and deletes the dots of an
already-normalized decimal. -/
theorem normalizers_fixed_points (s : String) :
    normalize (normalize s) = normalize s ∧
    (',' ∉ s.data → normalize s = s) ∧
    (isNormalizedDecimal s = true → normalize s = s) ∧
    (',' ∉ s.data → '.' ∉ s.data → normalizeDot s = s) ∧
    (isNormalizedDecimal s = true →
      normalizeDot s = ⟨s.data.filter (fun c => c != '.')⟩) := by
  refine ⟨?_, normalize_of_no_comma s, ?_, normalizeDot_of_no_separator s, ?_⟩
  · apply normalize_of_no_comma
    rw [normalize_eq_spec]
    intro hm
    have := (List.mem_filter.mp hm).2
    revert this
    decide
  · intro h
    exact normalize_of_no_comma s (no_comma_of_isNormalizedDecimal s h)
  · intro h
    have hc := no_comma_of_isNormalizedDecimal s h
    rw [normalizeDot_eq_spec]
    unfold specVariantB
    congr 1
    have hc2 : ∀ a ∈ s.data.filter (fun c => c != '.'), a ≠ ',' := by
      intro a ha e
      exact hc (e ▸ (List.mem_filter.mp ha).1)
    conv_rhs => rw [← List.map_id (s.data.filter (fun c => c != '.'))]
    apply List.map_congr_left
    intro a ha
    simp [hc2 a ha]

/-- Claim C6, amended, at `"1234.56"` and `"1234"`. -/
theorem normalizers_fixed_points_witness :
    normalize "1234.56" = "1234.56" ∧ normalizeDot "1234" = "1234" ∧
    normalizeDot "1234.56" = ⟨"1234.56".data.filter (fun c => c != '.')⟩ :=
  ⟨(normalizers_fixed_points "1234.56").2.2.1 (by decide),
   (normalizers_fixed_points "1234").2.2.2.1 (by decide) (by decide),
   (normalizers_fixed_points "1234.56").2.2.2.2 (by decide)⟩

/-! ## The extractors (claims C3, C4, C5, C10) -/

/-- Claim C3. On a fetched BI page `getBI` stores one record per matched row, whose buy
is the parsed `normalizeDot` text of column 4 and whose sell is the parsed
`normalizeDot` text of column 3; with `"100"` in column 3 and `"200"` in column 4 the
record has buy 200 and sell 100. -/
theorem getBI_buy_column_4_sell_column_3 (net : Net) (now : Time) (bank : Bank)
    (doc : Document)
    (hf : Fetches net
      "https://www.bi.go.id/id/statistik/informasi-kurs/transaksi-bi/default.aspx" doc) :
    RecordsFollowRows (getBI net now bank) (doc.Find ".table-lg tbody tr") rowBI ∧
    (∀ tr : Row,
      (rowBI tr).Buy = (ParseFloat32 (normalizeDot (tr.FindText "td:nth-child(4)"))).1 ∧
      (rowBI tr).Sell = (ParseFloat32 (normalizeDot (tr.FindText "td:nth-child(3)"))).1) ∧
    (∀ tr : Row, tr.FindText "td:nth-child(3)" = "100" →
      tr.FindText "td:nth-child(4)" = "200" →
      (rowBI tr).Buy.toRat = some 200 ∧ (rowBI tr).Sell.toRat = some 100) := by
  refine ⟨recordsFollowRows_get .BI now bank hf _ _ (eachBI_eq_map doc), ?_, ?_⟩
  · intro tr
    exact ⟨rfl, rfl⟩
  · intro tr h3 h4
    have hb : (rowBI tr).Buy = .finite false 13107200 (-16) := by
      show (ParseFloat32 (normalizeDot (tr.FindText "td:nth-child(4)"))).1 = _
      rw [h4]; decide
    have hs : (rowBI tr).Sell = .finite false 13107200 (-17) := by
      show (ParseFloat32 (normalizeDot (tr.FindText "td:nth-child(3)"))).1 = _
      rw [h3]; decide
    rw [hb, hs]
    simp only [Float32.toRat]
    constructor <;> norm_num

/-- Claim C3 on the sample BI page: the first row has `"100"` in column 3 and `"200"` in
column 4. -/
theorem getBI_buy_column_4_sell_column_3_witness :
    RecordsFollowRows (getBI (netOf sampleBI) 7 Bank.init)
      (sampleBI.Find ".table-lg tbody tr") rowBI ∧
    ((rowBI (rowOf [("td:first-child", "  USD  "), ("td:nth-child(3)", "100"),
        ("td:nth-child(4)", "200")])).Buy.toRat = some 200 ∧
     (rowBI (rowOf [("td:first-child", "  USD  "), ("td:nth-child(3)", "100"),
        ("td:nth-child(4)", "200")])).Sell.toRat = some 100) :=
  have h := getBI_buy_column_4_sell_column_3 (netOf sampleBI) 7 Bank.init sampleBI
    ⟨"<html>", rfl, rfl⟩
  ⟨h.1, h.2.2 _ (by decide) (by decide)⟩

example : getBI (netOf sampleBI) 7 Bank.init
    = .ret (.json ⟨"BI - Bank Indonesia", 7,
          [⟨"USD", .finite false 13107200 (-16), .finite false 13107200 (-17)⟩,
           ⟨"\tEUR\n", Float32.zero, .finite false 8832256 (-9)⟩]⟩,
        ⟨"BI - Bank Indonesia", 7,
          [⟨"USD", .finite false 13107200 (-16), .finite false 13107200 (-17)⟩,
           ⟨"\tEUR\n", Float32.zero, .finite false 8832256 (-9)⟩]⟩) := by
  decide

/-- Claim C4. On a fetched page each of the four extractors stores exactly one record
per row its locator matches, the record at each position built from the row at that
position; no row is left out, whatever its texts. -/
theorem extractors_one_record_per_row (net : Net) (now : Time) (bank : Bank) (doc : Document)
    (hf : ∀ url, Fetches net url doc) :
    RecordsFollowRows (getBCA net now bank) (doc.Find ".m-table-kurs tbody tr") rowBCA ∧
    RecordsFollowRows (getBI net now bank) (doc.Find ".table-lg tbody tr") rowBI ∧
    RecordsFollowRows (getBNI net now bank)
      (doc.Find "#dnn_ctr3510_BNIValasInfoView_divBankNotes table tbody tr") rowBNI ∧
    RecordsFollowRows (getMEGA net now bank) (doc.Find "table tbody tr") rowMEGA :=
  ⟨recordsFollowRows_get .BCA now bank (hf _) _ _ (eachBCA_eq_map doc),
   recordsFollowRows_get .BI now bank (hf _) _ _ (eachBI_eq_map doc),
   recordsFollowRows_get .BNI now bank (hf _) _ _ (eachBNI_eq_map doc),
   recordsFollowRows_get .MEGA now bank (hf _) _ _ (eachMEGA_eq_map doc)⟩

/-- Claim C4 on the sample BCA page, whose second row has an empty currency and a sell
cell that is missing. -/
theorem extractors_one_record_per_row_witness :
    RecordsFollowRows (getBCA (netOf sampleBCA) 3 Bank.init)
      (sampleBCA.Find ".m-table-kurs tbody tr") rowBCA ∧
    (sampleBCA.Find ".m-table-kurs tbody tr").length = 2 :=
  ⟨(extractors_one_record_per_row (netOf sampleBCA) 3 Bank.init sampleBCA
      (fun _ => ⟨"<html>", rfl, rfl⟩)).1, by decide⟩

theorem parsed_empty_normalizeDot (t : String) (h : t = "") :
    (ParseFloat32 (normalizeDot t)).1 = Float32.zero := by
  subst h; decide

theorem parsed_empty_normalize (t : String) (h : t = "") :
    (ParseFloat32 (normalize t)).1 = Float32.zero := by
  subst h; decide

set_option maxRecDepth 100000 in
theorem parseFloat32_1e39 : ParseFloat32 (normalizeDot "1e39") = (.inf false, some .ErrRange) := by
  decide

set_option maxRecDepth 100000 in
theorem getBCA_sampleBCA :
    getBCA (netOf sampleBCA) 3 Bank.init
      = .ret (.text "",
          ⟨"BCA - Bank Central Asia", 3,
            [⟨" USD\n", .finite false 16128000 (-10), .finite false 16230400 (-10)⟩,
             ⟨"", .inf false, Float32.zero⟩]⟩) := by
  decide

/-- Claim C5, refuted as stated: on the sample BCA page the buy cell of the second row
is `1e39`; parsing its normalized text fails with a range error, and the record's buy
is `+Inf`, not 0 (its missing sell cell gives 0). The encoder then rejects the
envelope and the response text is empty. -/
theorem range_error_leaves_infinity :
    ParseFloat32 (normalizeDot "1e39") = (.inf false, some .ErrRange) ∧
    getBCA (netOf sampleBCA) 3 Bank.init
      = .ret (.text "",
          ⟨"BCA - Bank Central Asia", 3,
            [⟨" USD\n", .finite false 16128000 (-10), .finite false 16230400 (-10)⟩,
             ⟨"", .inf false, Float32.zero⟩]⟩) ∧
    Float32.inf false ≠ Float32.zero :=
  ⟨parseFloat32_1e39, getBCA_sampleBCA, by decide⟩

/-- Claim C5, amended. In every extractor the parse error is dropped and the field is
the value `ParseFloat` returned with it: 0 after a syntax error, an infinity after a
range error. The record is appended in either case and the loop goes on with the next
row; a cell with empty text, as a missing cell has, gives 0. -/
theorem parse_failure_policy (net : Net) (now : Time) (bank : Bank) (doc : Document)
    (hf : ∀ url, Fetches net url doc) :
    (∀ text, (ParseFloat32 text).2 = some .ErrSyntax → (ParseFloat32 text).1 = Float32.zero) ∧
    (∀ text, (ParseFloat32 text).2 = some .ErrRange →
      (ParseFloat32 text).1 = .inf false ∨ (ParseFloat32 text).1 = .inf true) ∧
    (∀ tr : Row,
      (rowBCA tr).Buy = (ParseFloat32 (normalizeDot (tr.FindText "td:nth-child(2) p"))).1 ∧
      (rowBCA tr).Sell = (ParseFloat32 (normalizeDot (tr.FindText "td:nth-child(3) p"))).1 ∧
      (rowBI tr).Buy = (ParseFloat32 (normalizeDot (tr.FindText "td:nth-child(4)"))).1 ∧
      (rowBI tr).Sell = (ParseFloat32 (normalizeDot (tr.FindText "td:nth-child(3)"))).1 ∧
      (rowBNI tr).Buy = (ParseFloat32 (normalizeDot (tr.FindText "td:nth-child(2)"))).1 ∧
      (rowBNI tr).Sell = (ParseFloat32 (normalizeDot (tr.FindText "td:nth-child(3)"))).1 ∧
      (rowMEGA tr).Buy = (ParseFloat32 (normalize (tr.FindText "td:nth-child(2)"))).1 ∧
      (rowMEGA tr).Sell = (ParseFloat32 (normalize (tr.FindText "td:nth-child(3)"))).1) ∧
    (RecordsFollowRows (getBCA net now bank) (doc.Find ".m-table-kurs tbody tr") rowBCA ∧
      RecordsFollowRows (getBI net now bank) (doc.Find ".table-lg tbody tr") rowBI ∧
      RecordsFollowRows (getBNI net now bank)
        (doc.Find "#dnn_ctr3510_BNIValasInfoView_divBankNotes table tbody tr") rowBNI ∧
      RecordsFollowRows (getMEGA net now bank) (doc.Find "table tbody tr") rowMEGA) ∧
    (∀ tr : Row,
      (tr.FindText "td:nth-child(2) p" = "" → (rowBCA tr).Buy = Float32.zero) ∧
      (tr.FindText "td:nth-child(3) p" = "" → (rowBCA tr).Sell = Float32.zero) ∧
      (tr.FindText "td:nth-child(4)" = "" → (rowBI tr).Buy = Float32.zero) ∧
      (tr.FindText "td:nth-child(3)" = "" → (rowBI tr).Sell = Float32.zero) ∧
      (tr.FindText "td:nth-child(2)" = "" → (rowBNI tr).Buy = Float32.zero) ∧
      (tr.FindText "td:nth-child(3)" = "" → (rowBNI tr).Sell = Float32.zero) ∧
      (tr.FindText "td:nth-child(2)" = "" → (rowMEGA tr).Buy = Float32.zero) ∧
      (tr.FindText "td:nth-child(3)" = "" → (rowMEGA tr).Sell = Float32.zero)) := by
  refine ⟨parseFloat32_errSyntax_value, ?_, ?_, ?_, ?_⟩
  · intro text h
    obtain ⟨neg, hn⟩ := parseFloat32_errRange_value text h
    cases neg
    · exact Or.inl hn
    · exact Or.inr hn
  · intro tr
    exact ⟨rfl, rfl, rfl, rfl, rfl, rfl, rfl, rfl⟩
  · exact ⟨recordsFollowRows_get .BCA now bank (hf _) _ _ (eachBCA_eq_map doc),
      recordsFollowRows_get .BI now bank (hf _) _ _ (eachBI_eq_map doc),
      recordsFollowRows_get .BNI now bank (hf _) _ _ (eachBNI_eq_map doc),
      recordsFollowRows_get .MEGA now bank (hf _) _ _ (eachMEGA_eq_map doc)⟩
  · intro tr
    exact ⟨parsed_empty_normalizeDot _, parsed_empty_normalizeDot _,
      parsed_empty_normalizeDot _, parsed_empty_normalizeDot _,
      parsed_empty_normalizeDot _, parsed_empty_normalizeDot _,
      parsed_empty_normalize _, parsed_empty_normalize _⟩

/-- Claim C5, amended, on the sample BI page, whose second row has `n/a` in column 4: a
syntax error, so buy 0. -/
theorem parse_failure_policy_witness :
    (ParseFloat32 (normalizeDot "n/a")).2 = some .ErrSyntax ∧
    (ParseFloat32 (normalizeDot "n/a")).1 = Float32.zero ∧
    RecordsFollowRows (getBI (netOf sampleBI) 7 Bank.init)
      (sampleBI.Find ".table-lg tbody tr") rowBI :=
  have h := parse_failure_policy (netOf sampleBI) 7 Bank.init sampleBI
    (fun _ => ⟨"<html>", rfl, rfl⟩)
  ⟨by decide, h.1 _ (by decide), h.2.2.2.1.2.1⟩

/-! ### Currency text (claim C10) -/

theorem dropWhile_head_not {p : Char → Bool} (l : List Char) (c : Char)
    (h : (l.dropWhile p).head? = some c) : p c = false := by
  induction l with
  | nil => simp at h
  | cons x xs ih =>
    by_cases hx : p x = true
    · rw [List.dropWhile_cons_of_pos hx] at h
      exact ih h
    · rw [List.dropWhile_cons_of_neg hx] at h
      simp at h
      subst h
      simpa using hx

theorem stringsTrim_data (s cutset : String) :
    ∃ pre post : List Char,
      s.data = pre ++ (stringsTrim s cutset).data ++ post ∧
      (∀ c ∈ pre, c ∈ cutset.data) ∧ (∀ c ∈ post, c ∈ cutset.data) ∧
      (∀ c, (stringsTrim s cutset).data.head? = some c → c ∉ cutset.data) ∧
      (∀ c, (stringsTrim s cutset).data.getLast? = some c → c ∉ cutset.data) := by
  set p : Char → Bool := fun c => cutset.data.contains c with hp
  set l1 := s.data.dropWhile p with hl1
  set r := (l1.reverse.dropWhile p).reverse with hr
  have hres : (stringsTrim s cutset).data = r := rfl
  have hsplit1 : s.data = s.data.takeWhile p ++ l1 := (List.takeWhile_append_dropWhile p _).symm
  have hsplit2 : l1 = r ++ (l1.reverse.takeWhile p).reverse := by
    have := List.takeWhile_append_dropWhile p l1.reverse
    have h2 := congrArg List.reverse this
    simp only [List.reverse_append, List.reverse_reverse] at h2
    exact h2.symm
  have hmem : ∀ c, p c = true ↔ c ∈ cutset.data := by
    intro c; simp [hp]
  have hlast : ∀ c, r.getLast? = some c → c ∉ cutset.data := by
    intro c hc
    rw [hr, List.getLast?_reverse] at hc
    have := dropWhile_head_not _ c hc
    intro hin
    rw [(hmem c).mpr hin] at this
    exact Bool.noConfusion this
  refine ⟨s.data.takeWhile p, (l1.reverse.takeWhile p).reverse, ?_, ?_, ?_, ?_, ?_⟩
  · rw [hres, List.append_assoc, ← hsplit2]; exact hsplit1
  · intro c hc
    exact (hmem c).mp (List.mem_takeWhile_imp hc)
  · intro c hc
    rw [List.mem_reverse] at hc
    exact (hmem c).mp (List.mem_takeWhile_imp hc)
  · intro c hc
    rw [hres] at hc
    have hl1head : l1.head? = some c := by
      rw [hsplit2]
      cases hrr : r with
      | nil => rw [hrr] at hc; simp at hc
      | cons x xs => rw [hrr] at hc; simpa using hc
    have := dropWhile_head_not _ c hl1head
    intro hin
    rw [(hmem c).mpr hin] at this
    exact Bool.noConfusion this
  · intro c hc
    rw [hres] at hc
    exact hlast c hc

/-- Claim C10, refuted as stated: `getBCA` stores the currency text ` USD\n` of the
sample BCA page with its leading space and trailing newline, and `getBI` keeps the tab
and the newline around `EUR` on the sample BI page. -/
theorem currency_keeps_whitespace :
    (eachBCA sampleBCA).map (fun d => d.Currency) = [" USD\n", ""] ∧
    (eachBI sampleBI).map (fun d => d.Currency) = ["USD", "\tEUR\n"] ∧
    (∃ body data, getBCA (netOf sampleBCA) 3 Bank.init
        = .ret (body, ⟨"BCA - Bank Central Asia", 3, data⟩) ∧
      data.map (fun d => d.Currency) = [" USD\n", ""]) := by
  refine ⟨?_, by decide, _, _, getBCA_sampleBCA, by decide⟩
  have h := getBCA_sampleBCA
  simp only [getBCA, httpGet, netOf, Option.isSome_none, Bool.false_eq_true, if_false,
    Proc.ret.injEq, Prod.mk.injEq, Bank.mk.injEq] at h
  rw [h.2.2.2]
  decide

/-- Claim C10, amended. `getBI` stores the first-column text without its leading and
trailing space characters (U+0020 only: tabs and newlines stay), so its currency never
begins or ends with a space; `getBCA`, `getBNI` and `getMEGA` store the text of their
currency cell as it is. -/
theorem currency_text_policy (net : Net) (now : Time) (bank : Bank) (doc : Document)
    (hf : ∀ url, Fetches net url doc) :
    (RecordsFollowRows (getBCA net now bank) (doc.Find ".m-table-kurs tbody tr") rowBCA ∧
      RecordsFollowRows (getBI net now bank) (doc.Find ".table-lg tbody tr") rowBI ∧
      RecordsFollowRows (getBNI net now bank)
        (doc.Find "#dnn_ctr3510_BNIValasInfoView_divBankNotes table tbody tr") rowBNI ∧
      RecordsFollowRows (getMEGA net now bank) (doc.Find "table tbody tr") rowMEGA) ∧
    ∀ tr : Row,
      (rowBCA tr).Currency = tr.FindText "td:first-child span p" ∧
      (rowBNI tr).Currency = tr.FindText "td:first-child" ∧
      (rowMEGA tr).Currency = tr.FindText "td:first-child" ∧
      (∃ pre post : List Char,
        (tr.FindText "td:first-child").data = pre ++ (rowBI tr).Currency.data ++ post ∧
        (∀ c ∈ pre, c = ' ') ∧ (∀ c ∈ post, c = ' ')) ∧
      (rowBI tr).Currency.data.head? ≠ some ' ' ∧
      (rowBI tr).Currency.data.getLast? ≠ some ' ' := by
  refine ⟨⟨recordsFollowRows_get .BCA now bank (hf _) _ _ (eachBCA_eq_map doc),
      recordsFollowRows_get .BI now bank (hf _) _ _ (eachBI_eq_map doc),
      recordsFollowRows_get .BNI now bank (hf _) _ _ (eachBNI_eq_map doc),
      recordsFollowRows_get .MEGA now bank (hf _) _ _ (eachMEGA_eq_map doc)⟩, ?_⟩
  intro tr
  obtain ⟨pre, post, h1, h2, h3, h4, h5⟩ := stringsTrim_data (tr.FindText "td:first-child") " "
  have hsp : ∀ c : Char, c ∈ " ".data ↔ c = ' ' := by
    intro c
    show c ∈ [' '] ↔ c = ' '
    simp
  refine ⟨rfl, rfl, rfl, ⟨pre, post, h1, ?_, ?_⟩, ?_, ?_⟩
  · intro c hc; exact (hsp c).mp (h2 c hc)
  · intro c hc; exact (hsp c).mp (h3 c hc)
  · intro h; exact h4 ' ' h ((hsp ' ').mpr rfl)
  · intro h; exact h5 ' ' h ((hsp ' ').mpr rfl)

/-- Claim C10, amended, on the sample pages. -/
theorem currency_text_policy_witness :
    (rowBCA (rowOf [("td:first-child span p", " USD\n")])).Currency
      = (rowOf [("td:first-child span p", " USD\n")]).FindText "td:first-child span p" ∧
    (rowBI (rowOf [("td:first-child", "  USD  ")])).Currency.data.head? ≠ some ' ' ∧
    RecordsFollowRows (getBI (netOf sampleBI) 7 Bank.init)
      (sampleBI.Find ".table-lg tbody tr") rowBI :=
  have h := currency_text_policy (netOf sampleBI) 7 Bank.init sampleBI
    (fun _ => ⟨"<html>", rfl, rfl⟩)
  ⟨(h.2 _).1, (h.2 _).2.2.2.2.1, h.1.2.1⟩

/-! ## Fetch failure (claim C7) -/

/-- Claim C7, refuted as stated: with the network down the `/bca` request gets no
response and the process exits with status 1, so the two requests after it, which
would be served by a running process, are not served. -/
theorem fetch_failure_ends_the_process :
    getBCA netDown 0 Bank.init = .exit 1 ∧
    serve printTable Bank.init
        [⟨"/bca", netDown, 0⟩, ⟨"/", netOf sampleBI, 1⟩, ⟨"/bi", netOf sampleBI, 2⟩]
      = ([none, none, none], some 1) ∧
    (serve printTable Bank.init [⟨"/", netOf sampleBI, 1⟩]).1
      = [some (.text "\x7b\"code\": 200, \"message\": \"Go Scrap Kurs\"\x7d")] := by
  decide

/-- Claim C7, amended. When retrieving or parsing the source page fails, each of the
four extractors ends the process through `log.Fatalln` with exit status 1: the request
gets no response, and no request after it is served. -/
theorem fetch_failure_exits (table : Char → Bool) (src : Source) (net : Net) (now : Time)
    (bank : Bank) (rest : List Request) (h : FetchFails net src.url) :
    src.get net now bank = .exit 1 ∧
    serve table bank (⟨src.route, net, now⟩ :: rest)
      = (none :: rest.map (fun _ => none), some 1) := by
  have hg := get_of_fetchFails src now bank h
  refine ⟨hg, ?_⟩
  cases src <;> simp [serve, serveMux, Source.route, Source.get] at hg ⊢ <;> simp [hg]

/-- Claim C7, amended, with the network down and a `/mega` request followed by two
others. -/
theorem fetch_failure_exits_witness :
    getMEGA netDown 5 Bank.init = .exit 1 ∧
    serve printTable Bank.init
        [⟨"/mega", netDown, 5⟩, ⟨"/", netDown, 6⟩, ⟨"/mega", netOf sampleBI, 7⟩]
      = ([none, none, none], some 1) :=
  fetch_failure_exits printTable .MEGA netDown 5 Bank.init
    [⟨"/", netDown, 6⟩, ⟨"/mega", netOf sampleBI, 7⟩] (Or.inl ⟨_, rfl⟩)

/-! ## The fallback route (claim C8) -/

theorem escapeChar_ne_nil (c : Char) : escapeChar c ≠ [] := by
  unfold escapeChar
  split_ifs <;> simp

theorem escapeChar_head (c : Char) :
    escapeChar c = [c] ∨ ∃ t, escapeChar c = '&' :: t := by
  unfold escapeChar
  split_ifs
  · exact Or.inr ⟨_, rfl⟩
  · exact Or.inr ⟨_, rfl⟩
  · exact Or.inr ⟨_, rfl⟩
  · exact Or.inr ⟨_, rfl⟩
  · exact Or.inr ⟨_, rfl⟩
  · exact Or.inl rfl

theorem escapeChar_cases (c : Char) :
    escapeChar c = "&amp;".data ∨ escapeChar c = "&#39;".data ∨ escapeChar c = "&lt;".data ∨
      escapeChar c = "&gt;".data ∨ escapeChar c = "&#34;".data ∨
      (escapeChar c = [c] ∧ c ≠ '&') := by
  unfold escapeChar
  split_ifs with h1 h2 h3 h4 h5
  · exact Or.inl rfl
  · exact Or.inr (Or.inl rfl)
  · exact Or.inr (Or.inr (Or.inl rfl))
  · exact Or.inr (Or.inr (Or.inr (Or.inl rfl)))
  · exact Or.inr (Or.inr (Or.inr (Or.inr (Or.inl rfl))))
  · exact Or.inr (Or.inr (Or.inr (Or.inr (Or.inr ⟨rfl, h1⟩))))

theorem flatMap_escapeChar_eq_nil (l : List Char) (h : l.flatMap escapeChar = []) : l = [] := by
  cases l with
  | nil => rfl
  | cons x xs =>
    simp only [List.flatMap_cons, List.append_eq_nil] at h
    exact absurd h.1 (escapeChar_ne_nil x)

/-- Only the path `/` is escaped to `/`. -/
theorem htmlEscapeString_eq_slash (p : String) : htmlEscapeString p = "/" ↔ p = "/" := by
  constructor
  · intro h
    have hd : p.data.flatMap escapeChar = ['/'] := congrArg String.data h
    cases hp : p.data with
    | nil => rw [hp] at hd; simp at hd
    | cons x xs =>
      rw [hp, List.flatMap_cons] at hd
      rcases escapeChar_head x with hx | ⟨t, hx⟩
      · rw [hx] at hd
        simp only [List.singleton_append, List.cons.injEq] at hd
        have hxs := flatMap_escapeChar_eq_nil xs hd.2
        have : p = ⟨p.data⟩ := rfl
        rw [this, hp, hd.1, hxs]
      · rw [hx] at hd
        simp only [List.cons_append, List.cons.injEq] at hd
        exact absurd hd.1 (by decide)
  · intro h
    subst h
    decide

theorem mem_escapeChar_markup (c x : Char)
    (hx : x = '<' ∨ x = '>' ∨ x = Char.ofNat 34 ∨ x = Char.ofNat 39) :
    x ∉ escapeChar c := by
  unfold escapeChar
  split_ifs with h1 h2 h3 h4 h5
  · rcases hx with h | h | h | h <;> subst h <;> decide
  · rcases hx with h | h | h | h <;> subst h <;> decide
  · rcases hx with h | h | h | h <;> subst h <;> decide
  · rcases hx with h | h | h | h <;> subst h <;> decide
  · rcases hx with h | h | h | h <;> subst h <;> decide
  · intro hm
    have : x = c := by simpa using hm
    subst this
    rcases hx with h | h | h | h <;> contradiction

theorem noMarkupChar_escape (p : String) : noMarkupChar (htmlEscapeString p).data := by
  have key : ∀ x : Char, (x = '<' ∨ x = '>' ∨ x = Char.ofNat 34 ∨ x = Char.ofNat 39) →
      x ∉ p.data.flatMap escapeChar := by
    intro x hx hm
    obtain ⟨c, _, hc⟩ := List.mem_flatMap.mp hm
    exact mem_escapeChar_markup c x hx hc
  exact ⟨key _ (Or.inl rfl), key _ (Or.inr (Or.inl rfl)), key _ (Or.inr (Or.inr (Or.inl rfl))),
    key _ (Or.inr (Or.inr (Or.inr rfl)))⟩

theorem ampersands_append_of_not_mem (l rest : List Char) (h : '&' ∉ l) :
    ampersandsStartEntities (l ++ rest) = ampersandsStartEntities rest := by
  induction l with
  | nil => rfl
  | cons x xs ih =>
    have hx : x ≠ '&' := fun e => h (by simp [e])
    have hxs : '&' ∉ xs := fun e => h (by simp [e])
    simp [ampersandsStartEntities, hx, ih hxs]

theorem ampersands_entity (rest : List Char) :
    ampersandsStartEntities ("&amp;".data ++ rest) = ampersandsStartEntities rest ∧
    ampersandsStartEntities ("&#39;".data ++ rest) = ampersandsStartEntities rest ∧
    ampersandsStartEntities ("&lt;".data ++ rest) = ampersandsStartEntities rest ∧
    ampersandsStartEntities ("&gt;".data ++ rest) = ampersandsStartEntities rest ∧
    ampersandsStartEntities ("&#34;".data ++ rest) = ampersandsStartEntities rest := by
  refine ⟨?_, ?_, ?_, ?_, ?_⟩ <;>
    simp [ampersandsStartEntities, entityBodies, List.isPrefixOf]

theorem ampersands_escape (l : List Char) :
    ampersandsStartEntities (l.flatMap escapeChar) = true := by
  induction l with
  | nil => rfl
  | cons x xs ih =>
    rw [List.flatMap_cons]
    have he := ampersands_entity (xs.flatMap escapeChar)
    rcases escapeChar_cases x with h | h | h | h | h | ⟨h, hne⟩
    · rw [h, he.1, ih]
    · rw [h, he.2.1, ih]
    · rw [h, he.2.2.1, ih]
    · rw [h, he.2.2.2.1, ih]
    · rw [h, he.2.2.2.2, ih]
    · rw [h, ampersands_append_of_not_mem _ _ (by simpa using fun e => hne e.symm), ih]

theorem lowerhex_mem (n : Nat) : lowerhex n ∈ "0123456789abcdef".data := by
  unfold lowerhex
  rw [List.getD_eq_getElem?_getD]
  cases h : "0123456789abcdef".data[n]? with
  | none => decide
  | some x => exact List.getElem?_mem h

theorem hexDigits_mem (k n : Nat) (x : Char) (h : x ∈ hexDigits k n) :
    x ∈ "0123456789abcdef".data := by
  induction k generalizing n with
  | zero => simp [hexDigits] at h
  | succ k ih =>
    simp only [hexDigits, List.mem_append, List.mem_singleton] at h
    rcases h with h | h
    · exact ih _ h
    · rw [h]; exact lowerhex_mem _

theorem quoteShape_ite (r : Char) (c : Prop) [Decidable c] (a b : List Char)
    (ha : QuoteShape r a) (hb : QuoteShape r b) : QuoteShape r (if c then a else b) := by
  split
  · exact ha
  · exact hb

theorem quoteShape_letter (r c : Char) (tail : List Char) (hc : c ∈ escapeLetters)
    (ht : ∀ y ∈ tail, y ∈ "0123456789abcdef".data) :
    QuoteShape r (Char.ofNat 92 :: c :: tail) :=
  Or.inr (Or.inr ⟨c, tail, hc, rfl, ht⟩)

/-- The three shapes of what `strconv.Quote` writes for one rune. -/
theorem appendEscapedRune_shape (table : Char → Bool) (r : Char) :
    QuoteShape r (appendEscapedRune table r) := by
  have hnil : ∀ y ∈ ([] : List Char), y ∈ "0123456789abcdef".data := by
    intro y hy; cases hy
  unfold appendEscapedRune
  refine quoteShape_ite r _ _ _ (Or.inl rfl) ?_
  refine quoteShape_ite r _ _ _ (Or.inr (Or.inl rfl)) ?_
  refine quoteShape_ite r _ _ _ (quoteShape_letter r _ _ (by decide) hnil) ?_
  refine quoteShape_ite r _ _ _ (quoteShape_letter r _ _ (by decide) hnil) ?_
  refine quoteShape_ite r _ _ _ (quoteShape_letter r _ _ (by decide) hnil) ?_
  refine quoteShape_ite r _ _ _ (quoteShape_letter r _ _ (by decide) hnil) ?_
  refine quoteShape_ite r _ _ _ (quoteShape_letter r _ _ (by decide) hnil) ?_
  refine quoteShape_ite r _ _ _ (quoteShape_letter r _ _ (by decide) hnil) ?_
  refine quoteShape_ite r _ _ _ (quoteShape_letter r _ _ (by decide) hnil) ?_
  refine quoteShape_ite r _ _ _
    (quoteShape_letter r _ _ (by decide) (fun y hy => hexDigits_mem _ _ y hy)) ?_
  refine quoteShape_ite r _ _ _
    (quoteShape_letter r _ _ (by decide) (fun y hy => hexDigits_mem _ _ y hy)) ?_
  exact quoteShape_letter r _ _ (by decide) (fun y hy => hexDigits_mem _ _ y hy)

/-- `strconv.Quote` writes `<`, `>`, `"`, `'` and `&` only for themselves. -/
theorem mem_appendEscapedRune (table : Char → Bool) (r x : Char)
    (hx : x = '<' ∨ x = '>' ∨ x = Char.ofNat 34 ∨ x = Char.ofNat 39 ∨ x = '&')
    (h : x ∈ appendEscapedRune table r) : x = r := by
  have hhex : x ∉ "0123456789abcdef".data := by
    rcases hx with e | e | e | e | e <;> subst e <;> decide
  have hbs : x ≠ Char.ofNat 92 := by
    rcases hx with e | e | e | e | e <;> subst e <;> decide
  have hlet : x ∉ escapeLetters := by
    rcases hx with e | e | e | e | e <;> subst e <;> decide
  rcases appendEscapedRune_shape table r with hs | hs | ⟨c, tail, hc, hs, ht⟩
  · rw [hs] at h
    rcases List.mem_cons.mp h with h1 | h1
    · exact absurd h1 hbs
    · exact List.mem_singleton.mp h1
  · rw [hs] at h
    exact List.mem_singleton.mp h
  · rw [hs] at h
    rcases List.mem_cons.mp h with h1 | h1
    · exact absurd h1 hbs
    · rcases List.mem_cons.mp h1 with h2 | h2
      · exact absurd (h2 ▸ hc) hlet
      · exact absurd (ht x h2) hhex

/-- Up to U+00FF `strconv.Quote` does not consult the tables. -/
theorem appendEscapedRune_latin1 (table : Char → Bool) (r : Char) (h : r.toNat ≤ 255) :
    appendEscapedRune table r = appendEscapedRune printTable r := by
  simp only [appendEscapedRune, isPrint, h, if_true]

theorem flatMap_appendEscapedRune_latin1 (table : Char → Bool) (l : List Char)
    (h : ∀ c ∈ l, c.toNat ≤ 255) :
    l.flatMap (appendEscapedRune table) = l.flatMap (appendEscapedRune printTable) := by
  induction l with
  | nil => rfl
  | cons x xs ih =>
    rw [List.flatMap_cons, List.flatMap_cons, appendEscapedRune_latin1 table x (h x (by simp)),
      ih (fun c hc => h c (by simp [hc]))]

theorem strconvQuote_latin1 (table : Char → Bool) (s : String)
    (h : ∀ c ∈ s.data, c.toNat ≤ 255) :
    strconvQuote table s = strconvQuote printTable s := by
  unfold strconvQuote
  rw [flatMap_appendEscapedRune_latin1 table s.data h]

theorem noMarkupChar_quoted (table : Char → Bool) (p : String) :
    noMarkupChar ((htmlEscapeString p).data.flatMap (appendEscapedRune table)) := by
  have hn := noMarkupChar_escape p
  have key : ∀ x : Char,
      (x = '<' ∨ x = '>' ∨ x = Char.ofNat 34 ∨ x = Char.ofNat 39 ∨ x = '&') →
      x ∉ (htmlEscapeString p).data →
      x ∉ (htmlEscapeString p).data.flatMap (appendEscapedRune table) := by
    intro x hx hnot hm
    obtain ⟨r, hr, hxr⟩ := List.mem_flatMap.mp hm
    have := mem_appendEscapedRune table r x hx hxr
    exact hnot (this ▸ hr)
  exact ⟨key _ (Or.inl rfl) hn.1, key _ (Or.inr (Or.inl rfl)) hn.2.1,
    key _ (Or.inr (Or.inr (Or.inl rfl))) hn.2.2.1,
    key _ (Or.inr (Or.inr (Or.inr (Or.inl rfl)))) hn.2.2.2⟩

theorem quote_entity (table : Char → Bool) :
    "&amp;".data.flatMap (appendEscapedRune table) = "&amp;".data ∧
    "&#39;".data.flatMap (appendEscapedRune table) = "&#39;".data ∧
    "&lt;".data.flatMap (appendEscapedRune table) = "&lt;".data ∧
    "&gt;".data.flatMap (appendEscapedRune table) = "&gt;".data ∧
    "&#34;".data.flatMap (appendEscapedRune table) = "&#34;".data := by
  refine ⟨?_, ?_, ?_, ?_, ?_⟩ <;>
    (rw [flatMap_appendEscapedRune_latin1 table _ (by decide)]; decide)

theorem ampersands_quoted (table : Char → Bool) (l : List Char) :
    ampersandsStartEntities ((l.flatMap escapeChar).flatMap (appendEscapedRune table))
      = true := by
  induction l with
  | nil => rfl
  | cons x xs ih =>
    rw [List.flatMap_cons, List.flatMap_append]
    have he := ampersands_entity ((xs.flatMap escapeChar).flatMap (appendEscapedRune table))
    have hq := quote_entity table
    rcases escapeChar_cases x with h | h | h | h | h | ⟨h, hne⟩
    · rw [h, hq.1, he.1, ih]
    · rw [h, hq.2.1, he.2.1, ih]
    · rw [h, hq.2.2.1, he.2.2.1, ih]
    · rw [h, hq.2.2.2.1, he.2.2.2.1, ih]
    · rw [h, hq.2.2.2.2, he.2.2.2.2, ih]
    · rw [h]
      have hnot : '&' ∉ [x].flatMap (appendEscapedRune table) := by
        intro hm
        simp only [List.flatMap_cons, List.flatMap_nil, List.append_nil] at hm
        exact hne (mem_appendEscapedRune table x '&'
          (Or.inr (Or.inr (Or.inr (Or.inr rfl)))) hm).symm
      rw [ampersands_append_of_not_mem _ _ hnot, ih]

theorem appendEscapedRune_plain (table : Char → Bool) (c : Char) (h : isPlainAscii c)
    (hq : c ≠ Char.ofNat 34) : appendEscapedRune table c = [c] := by
  obtain ⟨h1, h2, h3⟩ := h
  have hp : isPrint table c = true := by
    have : c.toNat ≤ 255 := by omega
    simp [isPrint, this, h1, h2]
  unfold appendEscapedRune
  rw [if_neg (by simp [hq, h3]), if_pos hp]

theorem isPlainAscii_of_mem_escapeChar (c y : Char) (hc : isPlainAscii c)
    (hy : y ∈ escapeChar c) : isPlainAscii y := by
  rcases escapeChar_cases c with h | h | h | h | h | ⟨h, _⟩
  all_goals rw [h] at hy
  all_goals unfold isPlainAscii
  · revert y; decide
  · revert y; decide
  · revert y; decide
  · revert y; decide
  · revert y; decide
  · rw [List.mem_singleton.mp hy]; exact hc

/-- A path of printable ASCII characters without backslash is quoted by putting its
escaped form between double quotes. -/
theorem strconvQuote_plain (table : Char → Bool) (p : String)
    (h : ∀ c ∈ p.data, isPlainAscii c) :
    strconvQuote table (htmlEscapeString p)
      = ⟨Char.ofNat 34 :: (htmlEscapeString p).data ++ [Char.ofNat 34]⟩ := by
  have hn := (noMarkupChar_escape p).2.2.1
  have hall : ∀ y ∈ (htmlEscapeString p).data, appendEscapedRune table y = [y] := by
    intro y hy
    obtain ⟨c, hc, hyc⟩ := List.mem_flatMap.mp hy
    exact appendEscapedRune_plain table y (isPlainAscii_of_mem_escapeChar c y (h c hc) hyc)
      (fun e => hn (e ▸ hy))
  have hid : ∀ l : List Char, (∀ y ∈ l, appendEscapedRune table y = [y]) →
      l.flatMap (appendEscapedRune table) = l := by
    intro l hl
    induction l with
    | nil => rfl
    | cons x xs ih =>
      rw [List.flatMap_cons, hl x (by simp), ih (fun y hy => hl y (by simp [hy]))]
      rfl
  unfold strconvQuote
  rw [hid _ hall]

/-- Claim C8. For every path `p` other than `/` the fallback handler answers with the
404 payload whose `path` field is the quoted, HTML-escaped `p`: neither the escaped
path nor its quoted form in the body has a `<`, `>`, `"` or `'`, and every `&` in them
starts one of the five entities; for a path of printable ASCII characters without
backslash the quoted form is the escaped path between double quotes. For `/xyz` the
field reads `"/xyz"`; for `/` the 200 banner is returned. -/
theorem unknown_route_echo_is_escaped (table : Char → Bool) (p : String) :
    (p ≠ "/" → handleRoot table p
      = .text ("\x7b\"code\": 404, \"message\": \"Page Not Found\", \"path\": "
          ++ strconvQuote table (htmlEscapeString p) ++ "\x7d")) ∧
    (noMarkupChar (htmlEscapeString p).data ∧
      ampersandsStartEntities (htmlEscapeString p).data = true) ∧
    (∃ lit : List Char,
      (strconvQuote table (htmlEscapeString p)).data
        = Char.ofNat 34 :: lit ++ [Char.ofNat 34] ∧
      noMarkupChar lit ∧ ampersandsStartEntities lit = true) ∧
    ((∀ c ∈ p.data, isPlainAscii c) →
      strconvQuote table (htmlEscapeString p)
        = ⟨Char.ofNat 34 :: (htmlEscapeString p).data ++ [Char.ofNat 34]⟩) ∧
    handleRoot table "/xyz"
      = .text "\x7b\"code\": 404, \"message\": \"Page Not Found\", \"path\": \"/xyz\"\x7d" ∧
    handleRoot table "/" = .text "\x7b\"code\": 200, \"message\": \"Go Scrap Kurs\"\x7d" := by
  have h404 : p ≠ "/" → handleRoot table p
      = .text ("\x7b\"code\": 404, \"message\": \"Page Not Found\", \"path\": "
          ++ strconvQuote table (htmlEscapeString p) ++ "\x7d") := by
    intro hp
    have : htmlEscapeString p ≠ "/" := fun e => hp ((htmlEscapeString_eq_slash p).mp e)
    simp [handleRoot, this]
  have hxyz : handleRoot table "/xyz"
      = .text "\x7b\"code\": 404, \"message\": \"Page Not Found\", \"path\": \"/xyz\"\x7d" := by
    have hq : strconvQuote table (htmlEscapeString "/xyz")
        = strconvQuote printTable (htmlEscapeString "/xyz") :=
      strconvQuote_latin1 table _ (by decide)
    have hne : htmlEscapeString "/xyz" ≠ "/" := by decide
    simp only [handleRoot, hne, if_false, hq]
    decide
  have h200 : handleRoot table "/"
      = .text "\x7b\"code\": 200, \"message\": \"Go Scrap Kurs\"\x7d" := by
    simp [handleRoot, (htmlEscapeString_eq_slash "/").mpr rfl]
  exact ⟨h404, ⟨noMarkupChar_escape p, ampersands_escape p.data⟩,
    ⟨_, rfl, noMarkupChar_quoted table p, ampersands_quoted table p.data⟩,
    strconvQuote_plain table p, hxyz, h200⟩

/-- Claim C8 at the path `/xyz"><script>`. -/
theorem unknown_route_echo_is_escaped_witness :
    handleRoot printTable "/xyz\"><script>"
      = .text ("\x7b\"code\": 404, \"message\": \"Page Not Found\", \"path\": "
          ++ strconvQuote printTable (htmlEscapeString "/xyz\"><script>") ++ "\x7d") ∧
    strconvQuote printTable (htmlEscapeString "/xyz\"><script>")
      = "\"/xyz&#34;&gt;&lt;script&gt;\"" :=
  have h := unknown_route_echo_is_escaped printTable "/xyz\"><script>"
  ⟨h.1 (by decide), by decide⟩

/-! ## The shared envelope (claim C9) -/

/-- Six statements of one goroutine, run without interruption, are the extractor. -/
theorem thread_run_of_fetches (src : Source) {net : Net} {doc : Document} (now : Time)
    (bank : Bank) (h : Fetches net src.url doc) :
    Thread.run 6 (Thread.start src net now) bank
      = .ret (⟨src, net, now, .done, doc, src.each doc,
            some (bytesToString (jsonMarshal (src.envelope now doc)))⟩,
          src.envelope now doc) := by
  have hg := httpGet_of_fetches h
  simp [Thread.run, Thread.step, Thread.start, hg, Source.envelope]

theorem interleave_first (n : Nat) (sched : List Bool) (a b : Thread) (bank : Bank)
    (a1 : Thread) (bank1 : Bank) (h : Thread.run n a bank = .ret (a1, bank1)) :
    interleave (List.replicate n false ++ sched) a b bank = interleave sched a1 b bank1 := by
  induction n generalizing a bank with
  | zero =>
    simp only [Thread.run, Proc.ret.injEq, Prod.mk.injEq] at h
    simp [h.1, h.2]
  | succ n ih =>
    simp only [Thread.run] at h
    simp only [List.replicate_succ, List.cons_append, interleave]
    cases hs : a.step bank with
    | exit st => rw [hs] at h; cases h
    | ret r =>
      obtain ⟨a2, bank2⟩ := r
      rw [hs] at h
      exact ih a2 bank2 h

theorem interleave_second (n : Nat) (a b : Thread) (bank : Bank)
    (b1 : Thread) (bank1 : Bank) (h : Thread.run n b bank = .ret (b1, bank1)) :
    interleave (List.replicate n true) a b bank = .ret (a, b1, bank1) := by
  induction n generalizing b bank with
  | zero =>
    simp only [Thread.run, Proc.ret.injEq, Prod.mk.injEq] at h
    simp [interleave, h.1, h.2]
  | succ n ih =>
    simp only [Thread.run] at h
    simp only [List.replicate_succ, interleave]
    cases hs : b.step bank with
    | exit st => rw [hs] at h; cases h
    | ret r =>
      obtain ⟨b2, bank2⟩ := r
      rw [hs] at h
      exact ih b2 bank2 h

/-- Claim C9, refuted as stated: a `/bi` request runs up to `bank.Data = rows`, a
`/bca` request then fetches and executes `bank.Name = ...`, and the `/bi` request
marshals: its response carries the bank name of the `/bca` request. -/
theorem concurrent_requests_share_the_envelope :
    responses (interleave [true, true, true, true, true, false, false, true]
        (Thread.start .BCA (netOf sampleBCA) 1) (Thread.start .BI (netOf sampleBI) 2)
        Bank.init)
      = some (none,
          some (.json ⟨"BCA - Bank Central Asia", 2,
            [⟨"USD", .finite false 13107200 (-16), .finite false 13107200 (-17)⟩,
             ⟨"\tEUR\n", Float32.zero, .finite false 8832256 (-9)⟩]⟩)) := by
  decide

/-- Claim C9, amended. The four extractors write to one process-wide envelope. When two
requests do not overlap, the first running to its end before the second starts, each
response is built from its own bank name, its own timestamp and the rows of its own
page, whatever the envelope held before; an extractor run on its own returns the same
response and leaves the same envelope from any previous envelope. -/
theorem sequential_requests_do_not_mix (srcA srcB : Source) (netA netB : Net)
    (nowA nowB : Time) (docA docB : Document) (bank : Bank)
    (hA : Fetches netA srcA.url docA) (hB : Fetches netB srcB.url docB) :
    responses (interleave (List.replicate 6 false ++ List.replicate 6 true)
        (Thread.start srcA netA nowA) (Thread.start srcB netB nowB) bank)
      = some (some (bytesToString (jsonMarshal ⟨srcA.bankName, nowA, srcA.each docA⟩)),
          some (bytesToString (jsonMarshal ⟨srcB.bankName, nowB, srcB.each docB⟩))) ∧
    (∀ bank1 : Bank, srcB.get netB nowB bank1
      = .ret (bytesToString (jsonMarshal ⟨srcB.bankName, nowB, srcB.each docB⟩),
          ⟨srcB.bankName, nowB, srcB.each docB⟩)) := by
  refine ⟨?_, fun bank1 => get_of_fetches srcB nowB bank1 hB⟩
  rw [interleave_first 6 _ _ _ _ _ _ (thread_run_of_fetches srcA nowA bank hA),
    interleave_second 6 _ _ _ _ _ (thread_run_of_fetches srcB nowB _ hB)]
  rfl

/-- Claim C9, amended, for a `/bca` request followed by a `/bi` request on the sample
pages. -/
theorem sequential_requests_do_not_mix_witness :
    responses (interleave (List.replicate 6 false ++ List.replicate 6 true)
        (Thread.start .BCA (netOf sampleBCA) 1) (Thread.start .BI (netOf sampleBI) 2)
        Bank.init)
      = some (some (bytesToString (jsonMarshal
            ⟨"BCA - Bank Central Asia", 1, eachBCA sampleBCA⟩)),
          some (bytesToString (jsonMarshal ⟨"BI - Bank Indonesia", 2, eachBI sampleBI⟩))) :=
  (sequential_requests_do_not_mix .BCA .BI (netOf sampleBCA) (netOf sampleBI) 1 2
    sampleBCA sampleBI Bank.init ⟨"<html>", rfl, rfl⟩ ⟨"<html>", rfl, rfl⟩).1

end GoScrapKurs
